import Mathlib

/-!
# Verification of the betterer result differ

A shallow embedding of `src/packages/betterer/src/test/file-test/differ.ts`
(the `differ` function) and of the `merge` command boundary in
`src/packages/cli/src/merge.ts`, together with theorems settling the
claims about them.

Modelling conventions:
* TypeScript objects become Lean structures; JS arrays become `List`s.
* JS `Array.prototype.filter` / `find` / `includes` / `indexOf` / `splice` are
  modelled by `List.filter` / `List.find?` / `List.contains` / `List.indexOf` /
  `List.erase` or `List.eraseIdx`.  The source only ever calls `includes`,
  `indexOf` and `splice` on elements that were obtained from the very list
  being searched, after value-based `filter`s, so value equality and JS
  reference equality coincide at every such call site (argued in the comment
  at each definition concerned).
* The log assembly of the source (lines 152-178, human display only) is not
  modelled; every claim is about the `diff` mapping.
* `file-test-result.ts` is not among the sources; its `getFile` operation is
  modelled from the spec (see `BettererFileTestResultΩ.getFile`).
-/

/-- An issue: a located finding with a content hash
(`BettererFileIssue` in the source's types). -/
structure BettererFileIssue where
  line : Nat
  column : Nat
  length : Nat
  message : String
  hash : String
deriving DecidableEq, Repr

/-- Serialised form of an issue: the fixed 5-element ordered tuple
`[line, column, length, message, hash]` (`serialiseIssue`, differ.ts
lines 190-192). -/
abbrev BettererFileIssueSerialised := Nat × Nat × Nat × String × String

/-- differ.ts lines 190-192. -/
def serialiseIssue (issue : BettererFileIssue) : BettererFileIssueSerialised :=
  (issue.line, issue.column, issue.length, issue.message, issue.hash)

/-- A file snapshot: absolute path, content hash, and its issues
(`BettererFileBase` in the source's types). -/
structure BettererFileBase where
  absolutePath : String
  hash : String
  issues : List BettererFileIssue
deriving DecidableEq, Repr

/-- A result snapshot: the files of one run (`BettererFileTestResultΩ`). -/
structure BettererFileTestResultΩ where
  files : List BettererFileBase
deriving DecidableEq, Repr

/-- Modelled from the spec: `file-test-result.ts` is not among the sources;
§3 of the spec describes a `ResultSnapshot` as "a set of FileSnapshots keyed
by `absolutePath`, with an incidental lookup-by-path operation".  The lookup
returns the first file with the given path, if any. -/
def BettererFileTestResultΩ.getFile (res : BettererFileTestResultΩ)
    (absolutePath : String) : Option BettererFileBase :=
  res.files.find? (fun f => f.absolutePath == absolutePath)

/-- A per-file diff entry (`BettererFileDiff` in the source's types):
each field is optional. -/
structure BettererFileDiff where
  fixed : Option (List BettererFileIssueSerialised) := none
  new : Option (List BettererFileIssueSerialised) := none
  existing : Option (List BettererFileIssueSerialised) := none
deriving DecidableEq, Repr

/-- `BettererFilesDiff = Record<string, BettererFileDiff>`: a JS object,
modelled as an association list in key insertion order. -/
abbrev BettererFilesDiff := List (String × BettererFileDiff)

/-- JS object property assignment `diff[path] = entry`: replace the value if
the key is present (keeping its position), otherwise append the new key. -/
def setEntry (diff : BettererFilesDiff) (path : String) (entry : BettererFileDiff) :
    BettererFilesDiff :=
  if diff.any (fun kv => kv.1 == path) then
    diff.map (fun kv => if kv.1 == path then (path, entry) else kv)
  else diff ++ [(path, entry)]

/-- JS object property read `diff[path]`. -/
def lookupEntry (diff : BettererFilesDiff) (path : String) : Option BettererFileDiff :=
  (diff.find? (fun kv => kv.1 == path)).map (fun kv => kv.2)

/-- differ.ts lines 22-24: result files whose path occurs in `expected` with
the same file hash. -/
def unchangedResultFiles (expectedΩ resultΩ : BettererFileTestResultΩ) :
    List BettererFileBase :=
  resultΩ.files.filter (fun r =>
    (expectedΩ.files.find? (fun e =>
      e.absolutePath == r.absolutePath && e.hash == r.hash)).isSome)

/-- differ.ts lines 26-28: result files whose path occurs in `expected` with a
different file hash. -/
def changedResultFiles (expectedΩ resultΩ : BettererFileTestResultΩ) :
    List BettererFileBase :=
  resultΩ.files.filter (fun r =>
    (expectedΩ.files.find? (fun e =>
      e.absolutePath == r.absolutePath && e.hash != r.hash)).isSome)

/-- differ.ts line 30: result files whose path does not occur in `expected`. -/
def newOrMovedFiles (expectedΩ resultΩ : BettererFileTestResultΩ) :
    List BettererFileBase :=
  resultΩ.files.filter (fun r =>
    (expectedΩ.files.find? (fun e => e.absolutePath == r.absolutePath)).isNone)

/-- differ.ts lines 32-34: expected files whose path does not occur in
`result`. -/
def fixedOrMovedFiles (expectedΩ resultΩ : BettererFileTestResultΩ) :
    List BettererFileBase :=
  expectedΩ.files.filter (fun e =>
    (resultΩ.files.find? (fun r => r.absolutePath == e.absolutePath)).isNone)

/-- differ.ts lines 36-53, the file move detection loop.  The source is a
`forEach` over `fixedOrMovedFiles` that `splice`s the very array being
iterated: `forEach` visits the live array at indices 0, 1, 2, ... and stops
once the index reaches the (shrunken) length, so a `splice(index, 1)` removes
the element just visited and makes the iteration skip the element that shifts
into position `index`.  This is modelled faithfully by an explicit index.

`possibilities[0]` is the first hash match, i.e. `newOrMoved.find?`; the
source's `newOrMovedFiles.splice(newOrMovedFiles.indexOf(moved), 1)` removes
the first occurrence of `moved` (`List.erase`): since `moved` is the first
element of `newOrMoved` whose hash matches, no earlier element can be equal
to it, so value-based erasure removes exactly the spliced position.

The fuel is the number of iterations `forEach` performs: JS `forEach` caches
the array length once, so it visits at most the initial length of
`fixedOrMovedFiles` indices, and any visit with the index at or beyond the
current (shrunken) length does nothing — the array only shrinks, so from the
first such visit on every further visit is a no-op, and returning at that
point is equivalent. -/
def movedFilesLoop : Nat → List BettererFileBase → List BettererFileBase →
    List (BettererFileBase × BettererFileBase) → Nat →
    List BettererFileBase × List BettererFileBase ×
      List (BettererFileBase × BettererFileBase)
  | 0, fixedOrMoved, newOrMoved, moved, _ => (fixedOrMoved, newOrMoved, moved)
  | fuel + 1, fixedOrMoved, newOrMoved, moved, index =>
    if h : index < fixedOrMoved.length then
      let fixedOrMovedFile := fixedOrMoved[index]
      match (newOrMoved.filter (fun n => n.hash == fixedOrMovedFile.hash)) with
      | [] => movedFilesLoop fuel fixedOrMoved newOrMoved moved (index + 1)
      | movedFile :: _ =>
        movedFilesLoop fuel (fixedOrMoved.eraseIdx index) (newOrMoved.erase movedFile)
          (moved ++ [(movedFile, fixedOrMovedFile)]) (index + 1)
    else (fixedOrMoved, newOrMoved, moved)

/-- The outcome of the file move detection, differ.ts lines 36-57:
remaining fixed files, remaining new files, and the moved pairs
(result file, expected file) in insertion order of the `movedFiles` map. -/
def fileClassification (expectedΩ resultΩ : BettererFileTestResultΩ) :
    List BettererFileBase × List BettererFileBase ×
      List (BettererFileBase × BettererFileBase) :=
  movedFilesLoop (fixedOrMovedFiles expectedΩ resultΩ).length
    (fixedOrMovedFiles expectedΩ resultΩ) (newOrMovedFiles expectedΩ resultΩ) [] 0

/-- differ.ts line 56: whatever is left of `fixedOrMovedFiles`. -/
def fixedFilesOf (expectedΩ resultΩ : BettererFileTestResultΩ) :
    List BettererFileBase :=
  (fileClassification expectedΩ resultΩ).1

/-- differ.ts line 57: whatever is left of `newOrMovedFiles`. -/
def newFilesOf (expectedΩ resultΩ : BettererFileTestResultΩ) :
    List BettererFileBase :=
  (fileClassification expectedΩ resultΩ).2.1

/-- differ.ts lines 36-53: the `movedFiles` map as a list of
(result file, expected file) pairs in insertion order. -/
def movedFilePairsOf (expectedΩ resultΩ : BettererFileTestResultΩ) :
    List (BettererFileBase × BettererFileBase) :=
  (fileClassification expectedΩ resultΩ).2.2

/-- differ.ts line 71: files that are diffed issue by issue. -/
def existingFilesOf (expectedΩ resultΩ : BettererFileTestResultΩ) :
    List BettererFileBase :=
  unchangedResultFiles expectedΩ resultΩ ++ changedResultFiles expectedΩ resultΩ ++
    (movedFilePairsOf expectedΩ resultΩ).map Prod.fst

/-- differ.ts line 73: `movedFiles.get(resultFile) || expectedΩ.getFile(...)`.
Moved result files have paths absent from `expected` while unchanged/changed
result files have paths present in it, so no unchanged/changed file can equal
a key of the moved map: value-based lookup agrees with the JS `Map` (which
keys by reference). -/
def counterpartOf (expectedΩ : BettererFileTestResultΩ)
    (movedFilePairs : List (BettererFileBase × BettererFileBase))
    (resultFile : BettererFileBase) : Option BettererFileBase :=
  match movedFilePairs.find? (fun kv => kv.1 == resultFile) with
  | some kv => some kv.2
  | none => expectedΩ.getFile resultFile.absolutePath

/-- differ.ts line 82 (and 87): the equality key of an issue,
`(line, column, length, hash)`. -/
def issuesEqual (e r : BettererFileIssue) : Bool :=
  e.line == r.line && e.column == r.column && e.length == r.length && e.hash == r.hash

/-- differ.ts lines 80-84: expected issues with an exactly matching result
issue. -/
def unchangedExpectedIssues (expectedIssues resultIssues : List BettererFileIssue) :
    List BettererFileIssue :=
  expectedIssues.filter (fun r =>
    (resultIssues.find? (fun e => issuesEqual e r)).isSome)

/-- differ.ts lines 85-89: result issues with an exactly matching expected
issue. -/
def unchangedResultIssues (expectedIssues resultIssues : List BettererFileIssue) :
    List BettererFileIssue :=
  resultIssues.filter (fun r =>
    (expectedIssues.find? (fun e => issuesEqual e r)).isSome)

/-- differ.ts line 92: result issues that are not in the unchanged list
(`includes` on the result of a value-based filter of the same list, so value
containment coincides with JS reference containment). -/
def newOrMovedIssues (expectedIssues resultIssues : List BettererFileIssue) :
    List BettererFileIssue :=
  resultIssues.filter (fun r =>
    !((unchangedResultIssues expectedIssues resultIssues).contains r))

/-- differ.ts line 94: expected issues that are not in the unchanged list. -/
def fixedOrMovedIssues (expectedIssues resultIssues : List BettererFileIssue) :
    List BettererFileIssue :=
  expectedIssues.filter (fun e =>
    !((unchangedExpectedIssues expectedIssues resultIssues).contains e))

/-- `Math.abs(a - b)` on JS numbers holding naturals. -/
def absDist (a b : Nat) : Nat := ((a : Int) - (b : Int)).natAbs

/-- differ.ts lines 112-126, the body of the `possibilities.forEach` scan,
including both early returns; `best` is the scan state.  Note that the source
reassigns `best` to `possibility` before comparing columns, so the second
comparison compares `possibility` with itself and the two column branches can
never change the outcome. -/
def scanPossibility (line column : Nat) (best possibility : BettererFileIssue) :
    BettererFileIssue :=
  if absDist line possibility.line ≥ absDist line best.line then best
  else
    let best := if absDist line possibility.line < absDist line best.line then
      possibility else best
    if absDist column possibility.column ≥ absDist column best.column then best
    else if absDist column possibility.column < absDist column best.column then
      possibility
    else best

/-- differ.ts lines 108-128: `let best = possibilities.shift()` followed by the
scan over the remaining possibilities and the final `assert(best)`.  `best` is
`undefined` (`none`) when `possibilities` is empty; the in-loop `assert(best)`
and the final `assert(best)` are modelled by propagating `none`. -/
def pickBest (line column : Nat) (possibilities : List BettererFileIssue) :
    Option BettererFileIssue :=
  (possibilities.drop 1).foldl
    (fun best possibility =>
      match best with
      | none => none
      | some b => some (scanPossibility line column b possibility))
    possibilities.head?

/-- differ.ts lines 99-134, the body of the `fixedOrMovedIssues.forEach`: the
state is (remaining `newOrMovedIssues` pool, `fixedIssues`, `movedIssues`).
The source's `newOrMovedIssues.splice(newOrMovedIssues.indexOf(best), 1)`
removes the first occurrence of `best` (`List.erase`): any element of the pool
equal in value to `best` has the same hash and is therefore also a
possibility, and the scan never prefers a possibility over an earlier one
with the same line distance, so no element before `best` can equal it and
value-based erasure removes exactly the spliced position.  The `none` branch
corresponds to the `assert(best)` failing, which cannot happen
(`possibilities` is non-empty there; see the C10 theorem). -/
def processFixedOrMovedIssue
    (state : List BettererFileIssue × List BettererFileIssue × List BettererFileIssue)
    (fixedOrMovedIssue : BettererFileIssue) :
    List BettererFileIssue × List BettererFileIssue × List BettererFileIssue :=
  let (newOrMoved, fixedIssues, movedIssues) := state
  let possibilities := newOrMoved.filter (fun n => n.hash == fixedOrMovedIssue.hash)
  if possibilities.isEmpty then
    (newOrMoved, fixedIssues ++ [fixedOrMovedIssue], movedIssues)
  else
    match pickBest fixedOrMovedIssue.line fixedOrMovedIssue.column possibilities with
    | none => (newOrMoved, fixedIssues, movedIssues)
    | some best => (newOrMoved.erase best, fixedIssues, movedIssues ++ [best])

/-- differ.ts lines 96-134: the whole moved/fixed issue resolution for one
matched file pair. -/
def issuesScan (expectedIssues resultIssues : List BettererFileIssue) :
    List BettererFileIssue × List BettererFileIssue × List BettererFileIssue :=
  (fixedOrMovedIssues expectedIssues resultIssues).foldl processFixedOrMovedIssue
    (newOrMovedIssues expectedIssues resultIssues, [], [])

/-- The `fixedIssues` array after the scan. -/
def fixedIssuesOf (expectedIssues resultIssues : List BettererFileIssue) :
    List BettererFileIssue :=
  (issuesScan expectedIssues resultIssues).2.1

/-- The `movedIssues` array after the scan. -/
def movedIssuesOf (expectedIssues resultIssues : List BettererFileIssue) :
    List BettererFileIssue :=
  (issuesScan expectedIssues resultIssues).2.2

/-- What is left of `newOrMovedIssues` after the scan. -/
def remainingNewOrMovedOf (expectedIssues resultIssues : List BettererFileIssue) :
    List BettererFileIssue :=
  (issuesScan expectedIssues resultIssues).1

/-- differ.ts line 137:
`newOrMovedIssues.map((n) => resultFile.issues[resultIssues.indexOf(n)])`.
`resultIssues` is a spread copy of `resultFile.issues`, so both lists hold the
same values; the default for an absent index is the issue itself (in the
source the index is always present, since the pool is drawn from
`resultIssues`). -/
def newIssuesFrom (resultIssues pool : List BettererFileIssue) :
    List BettererFileIssue :=
  pool.map (fun newIssue => resultIssues.getD (resultIssues.indexOf newIssue) newIssue)

/-- The `newIssues` array, differ.ts line 137. -/
def newIssuesOf (expectedIssues resultIssues : List BettererFileIssue) :
    List BettererFileIssue :=
  newIssuesFrom resultIssues (remainingNewOrMovedOf expectedIssues resultIssues)

/-- differ.ts lines 76-149: issue diffing of one matched file pair, returning
`none` when the reporting gate (lines 139-142) suppresses the entry. -/
def diffForExistingFile (expectedFile resultFile : BettererFileBase) :
    Option BettererFileDiff :=
  let newIssues := newIssuesOf expectedFile.issues resultFile.issues
  let fixedIssues := fixedIssuesOf expectedFile.issues resultFile.issues
  if newIssues.isEmpty && fixedIssues.isEmpty then none
  else some {
    existing := some ((unchangedExpectedIssues expectedFile.issues resultFile.issues ++
      movedIssuesOf expectedFile.issues resultFile.issues).map serialiseIssue),
    fixed := some (fixedIssues.map serialiseIssue),
    new := some (newIssues.map serialiseIssue) }

/-- differ.ts lines 59-63, the `fixedFiles.forEach` callback: every remaining
fixed file gets an entry holding all of its issues as fixed. -/
def fixedFileEntry (d : BettererFilesDiff) (file : BettererFileBase) : BettererFilesDiff :=
  setEntry d file.absolutePath { fixed := some (file.issues.map serialiseIssue) }

/-- differ.ts lines 65-69, the `newFiles.forEach` callback: every remaining
new file gets an entry holding all of its issues as new. -/
def newFileEntry (d : BettererFilesDiff) (file : BettererFileBase) : BettererFilesDiff :=
  setEntry d file.absolutePath { new := some (file.issues.map serialiseIssue) }

/-- differ.ts lines 72-150, the `existingFiles.forEach` callback: diff one
matched pair, skipping the entry when the reporting gate fires.  The `none`
branch of the counterpart lookup is unreachable in the source (`getFile`
asserts): every unchanged or changed result file shares its path with some
expected file, and every moved result file is a key of the moved map. -/
def existingFileStep (expectedΩ : BettererFileTestResultΩ)
    (movedFilePairs : List (BettererFileBase × BettererFileBase))
    (d : BettererFilesDiff) (resultFile : BettererFileBase) : BettererFilesDiff :=
  match counterpartOf expectedΩ movedFilePairs resultFile with
  | none => d
  | some expectedFile =>
    match diffForExistingFile expectedFile resultFile with
    | none => d
    | some entry => setEntry d resultFile.absolutePath entry

/-- differ.ts lines 17-150: the `diff` mapping built by `differ` (the parallel
log assembly, lines 152-178, is display only and not modelled). -/
def differ (expected result : BettererFileTestResultΩ) : BettererFilesDiff :=
  (existingFilesOf expected result).foldl
    (existingFileStep expected (movedFilePairsOf expected result))
    ((newFilesOf expected result).foldl newFileEntry
      ((fixedFilesOf expected result).foldl fixedFileEntry []))

/-- The expected files whose path occurs in `result`: the complement of
`fixedOrMovedFiles` inside `expectedΩ.files`; these are exactly the expected
counterparts that the unchanged/changed result files are diffed against.
Used only to state the partition property (C5). -/
def matchedExpectedFiles (expectedΩ resultΩ : BettererFileTestResultΩ) :
    List BettererFileBase :=
  expectedΩ.files.filter (fun e =>
    (resultΩ.files.find? (fun r => r.absolutePath == e.absolutePath)).isSome)

/-- The amended description of the file move detection (C3): a structural
recursion equivalent to `movedFilesLoop` that makes the skip explicit.  When
the file at hand is consumed as a move, the element right after it (`g`) is
kept as fixed without ever being examined for move candidates — this is what
the `splice`-during-`forEach` of differ.ts lines 37-53 actually does. -/
def movedFilesLoopSkipSpec :
    List BettererFileBase → List BettererFileBase →
      List BettererFileBase × List BettererFileBase ×
        List (BettererFileBase × BettererFileBase)
  | [], newOrMoved => ([], newOrMoved, [])
  | f :: rest, newOrMoved =>
    match (newOrMoved.filter (fun n => n.hash == f.hash)) with
    | [] =>
      let (fx, ns, mv) := movedFilesLoopSkipSpec rest newOrMoved
      (f :: fx, ns, mv)
    | m :: _ =>
      match rest with
      | [] => ([], newOrMoved.erase m, [(m, f)])
      | g :: rest2 =>
        let (fx, ns, mv) := movedFilesLoopSkipSpec rest2 (newOrMoved.erase m)
        (g :: fx, ns, (m, f) :: mv)

/-- merge.ts lines 13-28, the `merge` command action: the external collaborator
`betterer.merge` (not among the sources) is abstracted by its outcome, an
`Except` value over an arbitrary error type; the Node `process.exitCode`
(unset or a number) is threaded explicitly.  The `try`/`catch` of lines 23-27
catches any failure and sets the exit code to `1`; the function is total, so
the failure never escapes. -/
def mergeCommandAction {ε : Type} (collaborator : Except ε Unit)
    (exitCode : Option Nat) : Option Nat :=
  match collaborator with
  | Except.ok _ => exitCode
  | Except.error _ => some 1

/-! ## Heap model for the frame property (C9)

The differ mutates arrays in place (`splice`, `shift`, `push`).  To state that
the input snapshots are left untouched, the array store is made explicit: a
heap holds every array by reference, JS `filter` / spread / `[]` literals
allocate fresh arrays, and every mutation is a write to a reference.  A file
object holds its issues array by reference.  Reads of absent references
default to `[]` (they never happen in the runs below). -/

/-- A file object whose `issues` array lives in the heap. -/
structure HeapFile where
  absolutePath : String
  hash : String
  issuesRef : Nat
deriving DecidableEq, Repr

/-- The array store: file arrays and issue arrays, addressed by index. -/
structure Heap where
  fileArrays : List (List HeapFile)
  issueArrays : List (List BettererFileIssue)
deriving Repr

/-- Read a file array. -/
def readFiles (h : Heap) (ref : Nat) : List HeapFile :=
  h.fileArrays.getD ref []

/-- Read an issue array. -/
def readIssues (h : Heap) (ref : Nat) : List BettererFileIssue :=
  h.issueArrays.getD ref []

/-- Allocate a fresh file array (JS `filter` on a file array). -/
def allocFiles (h : Heap) (xs : List HeapFile) : Nat × Heap :=
  (h.fileArrays.length, { h with fileArrays := h.fileArrays ++ [xs] })

/-- Allocate a fresh issue array (JS `filter` / spread / `[]` literal). -/
def allocIssues (h : Heap) (xs : List BettererFileIssue) : Nat × Heap :=
  (h.issueArrays.length, { h with issueArrays := h.issueArrays ++ [xs] })

/-- Mutate a file array in place (JS `splice`). -/
def writeFiles (h : Heap) (ref : Nat) (xs : List HeapFile) : Heap :=
  { h with fileArrays := h.fileArrays.set ref xs }

/-- Mutate an issue array in place (JS `splice` / `shift` / `push`). -/
def writeIssues (h : Heap) (ref : Nat) (xs : List BettererFileIssue) : Heap :=
  { h with issueArrays := h.issueArrays.set ref xs }

/-- Heap version of differ.ts lines 36-53 (see `movedFilesLoop`): the two
mutated arrays are accessed through the heap; the fuel starts at the initial
length of `fixedOrMoved`, which bounds the number of iterations (the index
grows by one per iteration and the length never grows). -/
def movedFilesLoopH (fixedOrMovedRef newOrMovedRef : Nat) :
    Nat → Nat → List (HeapFile × HeapFile) → Heap →
      List (HeapFile × HeapFile) × Heap
  | 0, _, movedPairs, h => (movedPairs, h)
  | fuel + 1, index, movedPairs, h =>
    let fixedOrMoved := readFiles h fixedOrMovedRef
    if hidx : index < fixedOrMoved.length then
      let fixedOrMovedFile := fixedOrMoved[index]
      let newOrMoved := readFiles h newOrMovedRef
      match (newOrMoved.filter (fun n => n.hash == fixedOrMovedFile.hash)) with
      | [] => movedFilesLoopH fixedOrMovedRef newOrMovedRef fuel (index + 1) movedPairs h
      | movedFile :: _ =>
        let h := writeFiles h fixedOrMovedRef (fixedOrMoved.eraseIdx index)
        let h := writeFiles h newOrMovedRef (newOrMoved.erase movedFile)
        movedFilesLoopH fixedOrMovedRef newOrMovedRef fuel (index + 1)
          (movedPairs ++ [(movedFile, fixedOrMovedFile)]) h
    else (movedPairs, h)

/-- Heap version of differ.ts lines 99-134, one step of the
`fixedOrMovedIssues.forEach`: `possibilities` is a fresh array mutated by
`shift`; `fixedIssues`, `movedIssues` and the `newOrMovedIssues` pool are
mutated through their references. -/
def issueLoopH (newOrMovedRef fixedRef movedRef : Nat) :
    List BettererFileIssue → Heap → Heap
  | [], h => h
  | fixedOrMovedIssue :: rest, h =>
    let newOrMoved := readIssues h newOrMovedRef
    let (possRef, h) := allocIssues h
      (newOrMoved.filter (fun n => n.hash == fixedOrMovedIssue.hash))
    match readIssues h possRef with
    | [] =>
      let h := writeIssues h fixedRef (readIssues h fixedRef ++ [fixedOrMovedIssue])
      issueLoopH newOrMovedRef fixedRef movedRef rest h
    | b :: restPoss =>
      let h := writeIssues h possRef restPoss
      let best := restPoss.foldl
        (fun best possibility =>
          scanPossibility fixedOrMovedIssue.line fixedOrMovedIssue.column best possibility) b
      let h := writeIssues h newOrMovedRef ((readIssues h newOrMovedRef).erase best)
      let h := writeIssues h movedRef (readIssues h movedRef ++ [best])
      issueLoopH newOrMovedRef fixedRef movedRef rest h

/-- Heap version of differ.ts lines 76-149: issue diffing of one matched file
pair.  `resultIssues` (the spread copy) and the unchanged lists are fresh
arrays that are never mutated afterwards, so they are kept as values;
`expectedIssues` is read directly from the expected file's array (the source
aliases it and only reads it). -/
def diffIssuesH (expectedIssues resultIssues : List BettererFileIssue) (h : Heap) :
    Option BettererFileDiff × Heap :=
  let unchangedExpected := expectedIssues.filter (fun x =>
    (resultIssues.find? (fun e => issuesEqual e x)).isSome)
  let unchangedResult := resultIssues.filter (fun x =>
    (expectedIssues.find? (fun e => issuesEqual e x)).isSome)
  let alloc1 := allocIssues h
    (resultIssues.filter (fun x => !(unchangedResult.contains x)))
  let newOrMovedRef := alloc1.1
  let fixedOrMoved := expectedIssues.filter (fun x => !(unchangedExpected.contains x))
  let alloc2 := allocIssues alloc1.2 []
  let movedRef := alloc2.1
  let alloc3 := allocIssues alloc2.2 []
  let fixedRef := alloc3.1
  let h4 := issueLoopH newOrMovedRef fixedRef movedRef fixedOrMoved alloc3.2
  let newIssues := (readIssues h4 newOrMovedRef).map
    (fun n => resultIssues.getD (resultIssues.indexOf n) n)
  let fixedIssues := readIssues h4 fixedRef
  let movedIssues := readIssues h4 movedRef
  if newIssues.isEmpty && fixedIssues.isEmpty then (none, h4)
  else
    (some {
      existing := some ((unchangedExpected ++ movedIssues).map serialiseIssue),
      fixed := some (fixedIssues.map serialiseIssue),
      new := some (newIssues.map serialiseIssue) }, h4)

/-- Heap version of differ.ts lines 72-150, the `existingFiles.forEach`
callback (see `existingFileStep` of the value-level embedding). -/
def existingFileStepH (expectedFilesRef : Nat)
    (movedPairs : List (HeapFile × HeapFile))
    (acc : BettererFilesDiff × Heap) (resultFile : HeapFile) :
    BettererFilesDiff × Heap :=
  let (d, h) := acc
  let expectedFileOpt := match movedPairs.find? (fun kv => kv.1 == resultFile) with
    | some kv => some kv.2
    | none => (readFiles h expectedFilesRef).find?
        (fun f => f.absolutePath == resultFile.absolutePath)
  match expectedFileOpt with
  | none => (d, h)
  | some expectedFile =>
    match diffIssuesH (readIssues h expectedFile.issuesRef)
        (readIssues h resultFile.issuesRef) h with
    | (none, h2) => (d, h2)
    | (some entry, h2) => (setEntry d resultFile.absolutePath entry, h2)

/-- Heap version of differ.ts lines 17-150: the snapshots are the file arrays
at `expectedFilesRef` and `resultFilesRef`, with each file's issues array
behind its `issuesRef`.  `unchangedResult` and `changedResult` are fresh
arrays never mutated afterwards and are kept as values; `fixedOrMoved` and
`newOrMoved` are mutated by the move loop and live in the heap. -/
def differH (expectedFilesRef resultFilesRef : Nat) (h : Heap) :
    BettererFilesDiff × Heap :=
  let expectedFiles := readFiles h expectedFilesRef
  let resultFiles := readFiles h resultFilesRef
  let unchangedResult := resultFiles.filter (fun r =>
    (expectedFiles.find? (fun e =>
      e.absolutePath == r.absolutePath && e.hash == r.hash)).isSome)
  let changedResult := resultFiles.filter (fun r =>
    (expectedFiles.find? (fun e =>
      e.absolutePath == r.absolutePath && e.hash != r.hash)).isSome)
  let alloc1 := allocFiles h (resultFiles.filter (fun r =>
    (expectedFiles.find? (fun e => e.absolutePath == r.absolutePath)).isNone))
  let newOrMovedRef := alloc1.1
  let alloc2 := allocFiles alloc1.2 (expectedFiles.filter (fun e =>
    (resultFiles.find? (fun r => r.absolutePath == e.absolutePath)).isNone))
  let fixedOrMovedRef := alloc2.1
  let fuel := (readFiles alloc2.2 fixedOrMovedRef).length
  let loopRes := movedFilesLoopH fixedOrMovedRef newOrMovedRef fuel 0 [] alloc2.2
  let movedPairs := loopRes.1
  let h3 := loopRes.2
  let fixedFiles := readFiles h3 fixedOrMovedRef
  let newFiles := readFiles h3 newOrMovedRef
  let d1 := fixedFiles.foldl (fun d file =>
      setEntry d file.absolutePath
        { fixed := some ((readIssues h3 file.issuesRef).map serialiseIssue) }) []
  let d2 := newFiles.foldl (fun d file =>
      setEntry d file.absolutePath
        { new := some ((readIssues h3 file.issuesRef).map serialiseIssue) }) d1
  let existingFiles := unchangedResult ++ changedResult ++ movedPairs.map Prod.fst
  existingFiles.foldl (existingFileStepH expectedFilesRef movedPairs) (d2, h3)

/-- `heapExtends h0 h1`: every array present in `h0` is present, unchanged, at
the same reference in `h1`; `h1` may hold additional arrays allocated after
`h0`.  In particular the file arrays of both input snapshots and every issue
array reachable from them are identical in `h0` and `h1`. -/
def heapExtends (h0 h1 : Heap) : Prop :=
  (∃ fs, h1.fileArrays = h0.fileArrays ++ fs) ∧
    (∃ is, h1.issueArrays = h0.issueArrays ++ is)

/-! ## Concrete inputs used by counterexamples and witnesses -/

/-- An expected issue at line 10, column 5 (C1). -/
def tieIssueExpected : BettererFileIssue := ⟨10, 5, 1, "m", "X"⟩

/-- A same-hash candidate at line 11, column 50: tied on line distance,
much farther on column distance (C1). -/
def tieCandidateFar : BettererFileIssue := ⟨11, 50, 1, "m", "X"⟩

/-- A same-hash candidate at line 11, column 5: tied on line distance,
exactly matching on column (C1). -/
def tieCandidateNear : BettererFileIssue := ⟨11, 5, 1, "m", "X"⟩

/-- An issue that occurs twice among the expected issues and once among the
result issues of one file (C2). -/
def dupIssue : BettererFileIssue := ⟨1, 1, 1, "m", "X"⟩

/-- Expected file at an old path, content hash `"H"` (C3). -/
def movedFileA : BettererFileBase := ⟨"/old/a", "H", []⟩

/-- A second expected file with the same content hash `"H"` (C3). -/
def movedFileB : BettererFileBase := ⟨"/old/b", "H", []⟩

/-- Result file at a new path, content hash `"H"` (C3). -/
def movedFileX : BettererFileBase := ⟨"/new/x", "H", []⟩

/-- A second result file with the same content hash `"H"` (C3). -/
def movedFileY : BettererFileBase := ⟨"/new/y", "H", []⟩

/-- An expected file with an empty issue list whose path is absent from the
result snapshot (C4). -/
def emptyFixedFile : BettererFileBase := ⟨"/gone", "H", []⟩

/-- A one-issue file used by witnesses. -/
def witnessFile : BettererFileBase := ⟨"/w", "h", [⟨1, 2, 3, "m", "X"⟩]⟩

/-- An expected issue with hash `"X"` used by the C7 witness. -/
def fixedWitnessIssue : BettererFileIssue := ⟨1, 1, 1, "m", "X"⟩

/-- A result issue with hash `"Y"` used by the C7 witness. -/
def otherHashIssue : BettererFileIssue := ⟨2, 2, 2, "n", "Y"⟩

/-! ## Helper lemmas -/

theorem issuesEqual_refl (x : BettererFileIssue) : issuesEqual x x = true := by
  simp [issuesEqual]

theorem getD_indexOf_self (l : List BettererFileIssue) (x : BettererFileIssue) :
    l.getD (l.indexOf x) x = x := by
  induction l with
  | nil => simp [List.getD]
  | cons a l ih =>
    by_cases hax : a == x
    · simp [List.indexOf_cons, hax, List.getD, eq_of_beq hax]
    · simp [List.indexOf_cons, hax, List.getD] at ih ⊢
      exact ih

/-- differ.ts line 137 maps each remaining pool issue back to the identical
value in `resultFile.issues`, so the mapping is the identity. -/
theorem newIssuesFrom_eq (resultIssues pool : List BettererFileIssue) :
    newIssuesFrom resultIssues pool = pool := by
  unfold newIssuesFrom
  induction pool with
  | nil => rfl
  | cons a l ih =>
    simp only [List.map_cons]
    rw [getD_indexOf_self, ih]

/-- Membership in a filtered list, with the filter predicate evaluated:
`contains` after a value-based filter of the same list coincides with the
filter predicate. -/
theorem contains_filter_eq (p : BettererFileIssue → Bool)
    (l : List BettererFileIssue) (x : BettererFileIssue) (hx : x ∈ l) :
    (l.filter p).contains x = p x := by
  by_cases hp : p x
  · simp [List.contains, List.mem_filter, hx, hp]
  · simp [List.contains, List.mem_filter, hx, hp]

/-- The pool of possibly-new result issues is the filter of `resultIssues` by
the absence of an exact expected partner. -/
theorem newOrMovedIssues_eq (expectedIssues resultIssues : List BettererFileIssue) :
    newOrMovedIssues expectedIssues resultIssues =
      resultIssues.filter (fun r =>
        !((expectedIssues.find? (fun e => issuesEqual e r)).isSome)) := by
  unfold newOrMovedIssues unchangedResultIssues
  refine List.filter_congr (fun x hx => ?_)
  rw [contains_filter_eq _ _ _ hx]

/-- The pool of possibly-fixed expected issues is the filter of
`expectedIssues` by the absence of an exact result partner. -/
theorem fixedOrMovedIssues_eq (expectedIssues resultIssues : List BettererFileIssue) :
    fixedOrMovedIssues expectedIssues resultIssues =
      expectedIssues.filter (fun e =>
        !((resultIssues.find? (fun r => issuesEqual r e)).isSome)) := by
  unfold fixedOrMovedIssues unchangedExpectedIssues
  refine List.filter_congr (fun x hx => ?_)
  rw [contains_filter_eq _ _ _ hx]

/-- `scanPossibility` returns one of its two arguments. -/
theorem scanPossibility_eq_or (line column : Nat) (best possibility : BettererFileIssue) :
    scanPossibility line column best possibility = best ∨
      scanPossibility line column best possibility = possibility := by
  unfold scanPossibility
  by_cases h1 : absDist line possibility.line ≥ absDist line best.line
  · simp [h1]
  · have h2 : absDist line possibility.line < absDist line best.line := by omega
    simp [h1, h2]

/-- The scan preserves definedness of `best`: folding the scan body over any
list of possibilities starting from a defined `best` stays defined. -/
theorem pickBest_foldl_isSome (line column : Nat) (l : List BettererFileIssue)
    (b : BettererFileIssue) :
    (l.foldl
      (fun best possibility =>
        match best with
        | none => none
        | some b => some (scanPossibility line column b possibility))
      (some b)).isSome = true := by
  induction l generalizing b with
  | nil => rfl
  | cons a l ih => exact ih _

/-- Whenever `possibilities` is non-empty, the scan of differ.ts lines 108-128
produces a defined `best`: neither `assert(best)` can fire. -/
theorem pickBest_isSome (line column : Nat) (possibilities : List BettererFileIssue)
    (h : possibilities ≠ []) : (pickBest line column possibilities).isSome = true := by
  match possibilities, h with
  | p :: rest, _ => exact pickBest_foldl_isSome line column rest p

/-- The chosen `best` is one of the possibilities. -/
theorem pickBest_mem (line column : Nat) (possibilities : List BettererFileIssue)
    (b : BettererFileIssue) (h : pickBest line column possibilities = some b) :
    b ∈ possibilities := by
  match possibilities with
  | [] => simp [pickBest] at h
  | p :: rest =>
    unfold pickBest at h
    simp only [List.head?_cons, List.drop_one, List.tail_cons] at h
    have aux : ∀ (l : List BettererFileIssue) (acc : BettererFileIssue),
        (acc ∈ p :: rest) → (∀ z ∈ l, z ∈ p :: rest) →
        ∀ bb, (l.foldl
          (fun best possibility =>
            match best with
            | none => none
            | some b => some (scanPossibility line column b possibility))
          (some acc)) = some bb → bb ∈ p :: rest := by
      intro l
      induction l with
      | nil =>
        intro acc hacc _ bb hbb
        simp at hbb
        exact hbb ▸ hacc
      | cons z l ih =>
        intro acc hacc hsub bb hbb
        simp only [List.foldl_cons] at hbb
        rcases scanPossibility_eq_or line column acc z with hc | hc <;>
          exact ih _ (by rw [hc]; first
            | exact hacc
            | exact hsub z (List.mem_cons_self z l))
            (fun w hw => hsub w (List.mem_cons_of_mem z hw)) bb hbb
    exact aux rest p (List.mem_cons_self p rest)
      (fun z hz => List.mem_cons_of_mem p hz) b h

/-! ## C10 -/

/-- C10: for every call of the issue-move search with a non-empty candidate
list, the initial `shift` yields a defined `best` and `best` stays defined
through the scan, so neither `assert(best)` (differ.ts lines 113 and 128) can
fire: `pickBest` models the scan with the asserts as `none`-propagation, and
it returns `some` whenever `possibilities` is non-empty.  In the differ the
scan only runs under the `if (!possibilities.length)` guard, so the
assertion-failure branch is unreachable and the differ never aborts. -/
theorem C10_assert_best_never_fires (line column : Nat)
    (possibilities : List BettererFileIssue) (h : possibilities ≠ []) :
    (pickBest line column possibilities).isSome = true :=
  pickBest_isSome line column possibilities h

/-- Witness for C10 at a concrete non-empty candidate list. -/
theorem C10_witness :
    ([fixedWitnessIssue] ≠ ([] : List BettererFileIssue)) ∧
      (pickBest 1 1 [fixedWitnessIssue]).isSome = true :=
  ⟨by decide, C10_assert_best_never_fires 1 1 [fixedWitnessIssue] (by decide)⟩

/-! ## C1 -/

/-- C1 (code bug): the spec requires a two-level tie-break — minimal absolute
line distance first, then among line-distance ties minimal absolute column
distance — and differ.ts lines 120-125 contain the column comparison, but it
is dead code: line 114 returns early whenever the line distance does not
strictly improve (including ties), and when it does strictly improve line 118
reassigns `best` to the candidate before line 120 compares columns, so the
column comparison always compares the candidate with itself and returns.
At the failing input — expected issue at (line 10, column 5), same-hash
candidates at (11, 50) and then (11, 5) — both candidates are tied on line
distance 1 and the claimed tie-break requires (11, 5) (column distance 0 over
45), but the code keeps the earlier candidate (11, 50): it becomes the moved
issue and (11, 5) is reported as new. -/
theorem C1_column_tiebreak_dead :
    pickBest 10 5 [tieCandidateFar, tieCandidateNear] = some tieCandidateFar ∧
    movedIssuesOf [tieIssueExpected] [tieCandidateFar, tieCandidateNear] =
      [tieCandidateFar] ∧
    newIssuesOf [tieIssueExpected] [tieCandidateFar, tieCandidateNear] =
      [tieCandidateNear] ∧
    absDist tieIssueExpected.line tieCandidateFar.line =
      absDist tieIssueExpected.line tieCandidateNear.line ∧
    absDist tieIssueExpected.column tieCandidateNear.column <
      absDist tieIssueExpected.column tieCandidateFar.column := by
  refine ⟨rfl, rfl, rfl, rfl, by decide⟩

/-! ## C2 -/

/-- C2 counterexample: with expected issues `[dupIssue, dupIssue]` and result
issues `[dupIssue]` the claim says one exact match consumes exactly one
expected and one result issue, and the surplus expected copy remains in the
`fixedOrMoved` pool.  The code instead classifies both expected copies as
unchanged (the filter keeps every expected issue that has *some* equal result
issue) and leaves the pool empty. -/
theorem C2_counterexample :
    unchangedExpectedIssues [dupIssue, dupIssue] [dupIssue] = [dupIssue, dupIssue] ∧
    unchangedResultIssues [dupIssue, dupIssue] [dupIssue] = [dupIssue] ∧
    fixedOrMovedIssues [dupIssue, dupIssue] [dupIssue] = [] ∧
    newOrMovedIssues [dupIssue, dupIssue] [dupIssue] = [] :=
  ⟨rfl, rfl, rfl, rfl⟩

/-- C2 amended: an expected issue is classified unchanged exactly when some
result issue agrees on `(line, column, length, hash)`, and a result issue
exactly when some expected issue does; the matching is by existence of a
partner, not one-to-one consumption — under duplicates every copy with at
least one partner is classified unchanged, and only issues with no partner at
all remain in the `fixedOrMoved` / `newOrMoved` pools. -/
theorem C2_amended (expectedIssues resultIssues : List BettererFileIssue)
    (issue : BettererFileIssue) :
    (issue ∈ unchangedExpectedIssues expectedIssues resultIssues ↔
      issue ∈ expectedIssues ∧ ∃ res ∈ resultIssues, issuesEqual res issue = true) ∧
    (issue ∈ unchangedResultIssues expectedIssues resultIssues ↔
      issue ∈ resultIssues ∧ ∃ e ∈ expectedIssues, issuesEqual e issue = true) ∧
    (issue ∈ fixedOrMovedIssues expectedIssues resultIssues ↔
      issue ∈ expectedIssues ∧ ∀ res ∈ resultIssues, issuesEqual res issue = false) ∧
    (issue ∈ newOrMovedIssues expectedIssues resultIssues ↔
      issue ∈ resultIssues ∧ ∀ e ∈ expectedIssues, issuesEqual e issue = false) := by
  refine ⟨?_, ?_, ?_, ?_⟩
  · unfold unchangedExpectedIssues
    simp [List.mem_filter, List.find?_isSome]
  · unfold unchangedResultIssues
    simp [List.mem_filter, List.find?_isSome]
  · rw [fixedOrMovedIssues_eq]
    simp [List.mem_filter, List.find?_isSome]
  · rw [newOrMovedIssues_eq]
    simp [List.mem_filter, List.find?_isSome]

/-! ## C3 counterexample -/

/-- C3 counterexample: expected files `A`, `B` (both hash `"H"`) disappear
and result files `X`, `Y` (both hash `"H"`) appear.  The claim asserts the
loop examines *every* `fixedOrMoved` file, so `B` (with remaining same-hash
candidate `Y`) would be paired and removed as a move.  The code instead
returns `B` as fixed and `Y` as new: after `A` is consumed, the splice during
the `forEach` shifts `B` into the visited slot and the iteration skips it. -/
theorem C3_counterexample :
    fileClassification ⟨[movedFileA, movedFileB]⟩ ⟨[movedFileX, movedFileY]⟩ =
      ([movedFileB], [movedFileY], [(movedFileX, movedFileA)]) ∧
    movedFileY.hash = movedFileB.hash :=
  ⟨rfl, rfl⟩

/-! ## C4 counterexample -/

/-- C4 counterexample: the expected snapshot holds one file (at `"/gone"`)
with an *empty* issue list, the result snapshot is empty.  The file is
classified fixed and differ.ts lines 59-63 unconditionally emit an entry
`{ fixed: [] }` for it, although no file has any issue at all — so the diff
mapping has an entry for a path with zero fixed and zero new issues,
contradicting the claimed "entry iff at least one fixed or new issue". -/
theorem C4_counterexample :
    differ ⟨[emptyFixedFile]⟩ ⟨[]⟩ =
      [("/gone", { fixed := some [], new := none, existing := none })] ∧
    emptyFixedFile.issues = [] :=
  ⟨rfl, rfl⟩

/-! ## C8 -/

/-- C8: the `merge` command action (merge.ts lines 23-27) wraps the merge
collaborator in `try`/`catch`: every failure of the collaborator is caught
and turns into the non-zero process exit code `1`, and because the handler
swallows the error the action is total — the process does not crash; on
success the exit code is left exactly as it was. -/
theorem C8_merge_exit_code {ε : Type} (err : ε) (exitCode : Option Nat) :
    (∃ c, mergeCommandAction (Except.error err) exitCode = some c ∧ c ≠ 0) ∧
    mergeCommandAction (Except.ok () : Except ε Unit) exitCode = exitCode := by
  exact ⟨⟨1, rfl, by decide⟩, rfl⟩

/-! ## C7 -/

/-- The scan fold only ever appends to `fixedIssues` and shrinks the pool,
and an issue whose hash matches nothing in the ambient pool is pushed to
`fixedIssues` when it is processed. -/
theorem fixedIssues_accum (pool0 : List BettererFileIssue) (x : BettererFileIssue)
    (hhash : ∀ r ∈ pool0, r.hash ≠ x.hash) :
    ∀ (toProcess pool fixedIssues movedIssues : List BettererFileIssue),
      (∀ y ∈ pool, y ∈ pool0) →
      (x ∈ toProcess ∨ x ∈ fixedIssues) →
      x ∈ (toProcess.foldl processFixedOrMovedIssue
        (pool, fixedIssues, movedIssues)).2.1 := by
  intro toProcess
  induction toProcess with
  | nil =>
    intro pool fixedIssues movedIssues _ hx
    rcases hx with hx | hx
    · exact absurd hx (List.not_mem_nil x)
    · simpa using hx
  | cons z rest ih =>
    intro pool fixedIssues movedIssues hpool hx
    have hz : x = z → (pool.filter (fun n => n.hash == z.hash)).isEmpty = true := by
      intro hxz
      rw [List.isEmpty_iff, List.filter_eq_nil_iff]
      intro a ha
      have : a.hash ≠ x.hash := hhash a (hpool a ha)
      simp [hxz ▸ this]
    rw [List.foldl_cons]
    unfold processFixedOrMovedIssue
    by_cases hemp : (pool.filter (fun n => n.hash == z.hash)).isEmpty
    · simp only [hemp, if_pos]
      refine ih pool (fixedIssues ++ [z]) movedIssues hpool ?_
      rcases hx with hx | hx
      · rcases List.mem_cons.mp hx with hx | hx
        · exact Or.inr (by simp [hx])
        · exact Or.inl hx
      · exact Or.inr (List.mem_append_left _ hx)
    · have hxz : x ≠ z := fun hc => hemp (hz hc)
      have hx2 : x ∈ rest ∨ x ∈ fixedIssues := by
        rcases hx with hx | hx
        · rcases List.mem_cons.mp hx with hx | hx
          · exact absurd hx hxz
          · exact Or.inl hx
        · exact Or.inr hx
      simp only [hemp, if_neg, Bool.false_eq_true, not_false_iff]
      cases hpick : pickBest z.line z.column (pool.filter (fun n => n.hash == z.hash)) with
      | none => exact ih pool fixedIssues movedIssues hpool hx2
      | some best =>
        refine ih (pool.erase best) fixedIssues (movedIssues ++ [best]) ?_ hx2
        exact fun y hy => hpool y (List.erase_subset best pool hy)

/-- C7: in a matched file pair, every expected issue left after the
exact-match pass whose hash differs from the hash of every result issue left
after that pass is pushed to `fixedIssues` and hence reported as fixed
(differ.ts lines 99-107). -/
theorem C7_fixed_detection (expectedIssues resultIssues : List BettererFileIssue)
    (issue : BettererFileIssue)
    (hmem : issue ∈ fixedOrMovedIssues expectedIssues resultIssues)
    (hnone : ∀ r ∈ newOrMovedIssues expectedIssues resultIssues, r.hash ≠ issue.hash) :
    issue ∈ fixedIssuesOf expectedIssues resultIssues := by
  unfold fixedIssuesOf issuesScan
  exact fixedIssues_accum (newOrMovedIssues expectedIssues resultIssues) issue hnone
    (fixedOrMovedIssues expectedIssues resultIssues)
    (newOrMovedIssues expectedIssues resultIssues) [] []
    (fun y hy => hy) (Or.inl hmem)

/-- Witness for C7: the expected issue (hash `"X"`) has no exact match and no
result issue shares its hash (the only result issue has hash `"Y"`), so it is
reported fixed. -/
theorem C7_witness :
    fixedWitnessIssue ∈ fixedOrMovedIssues [fixedWitnessIssue] [otherHashIssue] ∧
    (∀ r ∈ newOrMovedIssues [fixedWitnessIssue] [otherHashIssue],
      r.hash ≠ fixedWitnessIssue.hash) ∧
    fixedWitnessIssue ∈ fixedIssuesOf [fixedWitnessIssue] [otherHashIssue] :=
  ⟨by decide, by decide,
    C7_fixed_detection [fixedWitnessIssue] [otherHashIssue] fixedWitnessIssue
      (by decide) (by decide)⟩

/-! ## C3 amended -/

/-- Unfolding of the skip recursion when the head has no candidate. -/
theorem skipSpec_cons_none (f : BettererFileBase) (rest ns : List BettererFileBase)
    (hfilter : ns.filter (fun n => n.hash == f.hash) = []) :
    movedFilesLoopSkipSpec (f :: rest) ns =
      (f :: (movedFilesLoopSkipSpec rest ns).1,
        (movedFilesLoopSkipSpec rest ns).2.1,
        (movedFilesLoopSkipSpec rest ns).2.2) := by
  simp [movedFilesLoopSkipSpec, hfilter]

/-- Unfolding of the skip recursion when the head is consumed as a move: the
next element (`rest.take 1`) is kept as fixed unexamined and the recursion
continues behind it. -/
theorem skipSpec_cons_found (f : BettererFileBase) (rest ns : List BettererFileBase)
    (m : BettererFileBase) (tail : List BettererFileBase)
    (hfilter : ns.filter (fun n => n.hash == f.hash) = m :: tail) :
    movedFilesLoopSkipSpec (f :: rest) ns =
      (rest.take 1 ++ (movedFilesLoopSkipSpec (rest.drop 1) (ns.erase m)).1,
        (movedFilesLoopSkipSpec (rest.drop 1) (ns.erase m)).2.1,
        (m, f) :: (movedFilesLoopSkipSpec (rest.drop 1) (ns.erase m)).2.2) := by
  cases rest with
  | nil => simp [movedFilesLoopSkipSpec, hfilter]
  | cons g rest2 => simp [movedFilesLoopSkipSpec, hfilter]

/-- The index-and-splice loop of the source, started at any index with enough
fuel, equals the structural skip recursion on the unvisited suffix, with the
visited prefix kept in place. -/
theorem movedFilesLoop_eq_skipSpec_aux :
    ∀ (fuel : Nat) (fs ns : List BettererFileBase)
      (mv : List (BettererFileBase × BettererFileBase)) (i : Nat),
      fs.length ≤ fuel + i →
      movedFilesLoop fuel fs ns mv i =
        (fs.take i ++ (movedFilesLoopSkipSpec (fs.drop i) ns).1,
          (movedFilesLoopSkipSpec (fs.drop i) ns).2.1,
          mv ++ (movedFilesLoopSkipSpec (fs.drop i) ns).2.2) := by
  intro fuel
  induction fuel with
  | zero =>
    intro fs ns mv i hlen
    have hi : fs.length ≤ i := by omega
    rw [List.drop_eq_nil_of_le hi, List.take_of_length_le hi]
    simp [movedFilesLoop, movedFilesLoopSkipSpec]
  | succ fuel ih =>
    intro fs ns mv i hlen
    by_cases hidx : i < fs.length
    · have hdrop : fs.drop i = fs[i] :: fs.drop (i + 1) := List.drop_eq_getElem_cons hidx
      have htake : fs.take (i + 1) = fs.take i ++ [fs[i]] := by
        rw [List.take_succ, List.getElem?_eq_getElem hidx]
        rfl
      cases hfilter : ns.filter (fun n => n.hash == fs[i].hash) with
      | nil =>
        have hloop : movedFilesLoop (fuel + 1) fs ns mv i =
            movedFilesLoop fuel fs ns mv (i + 1) := by
          simp only [movedFilesLoop, dif_pos hidx, hfilter]
        rw [hloop, ih fs ns mv (i + 1) (by omega), hdrop,
          skipSpec_cons_none fs[i] (fs.drop (i + 1)) ns hfilter, htake,
          List.append_assoc]
        rfl
      | cons m tail =>
        have hloop : movedFilesLoop (fuel + 1) fs ns mv i =
            movedFilesLoop fuel (fs.eraseIdx i) (ns.erase m)
              (mv ++ [(m, fs[i])]) (i + 1) := by
          simp only [movedFilesLoop, dif_pos hidx, hfilter]
        have htakei : (fs.take i).length = i := by
          rw [List.length_take]
          omega
        have herase : fs.eraseIdx i = fs.take i ++ fs.drop (i + 1) :=
          List.eraseIdx_eq_take_drop_succ fs i
        have heraselen : (fs.eraseIdx i).length ≤ fuel + (i + 1) := by
          rw [List.length_eraseIdx_of_lt hidx]
          omega
        have hdrop2 : (fs.eraseIdx i).drop (i + 1) = (fs.drop (i + 1)).drop 1 := by
          rw [herase]
          rw [show i + 1 = (fs.take i).length + 1 by omega]
          rw [List.drop_append]
        have htake2 : (fs.eraseIdx i).take (i + 1) =
            fs.take i ++ (fs.drop (i + 1)).take 1 := by
          rw [herase]
          rw [show i + 1 = (fs.take i).length + 1 by omega]
          rw [List.take_append]
        rw [hloop, ih (fs.eraseIdx i) (ns.erase m) (mv ++ [(m, fs[i])]) (i + 1) heraselen,
          hdrop, skipSpec_cons_found fs[i] (fs.drop (i + 1)) ns m tail hfilter,
          hdrop2, htake2, List.append_assoc, List.append_assoc]
        rfl
    · have hi : fs.length ≤ i := by omega
      rw [List.drop_eq_nil_of_le hi, List.take_of_length_le hi]
      simp [movedFilesLoop, dif_neg hidx, movedFilesLoopSkipSpec]

/-- C3 amended: the file move detection of differ.ts lines 36-53 equals the
structural recursion `movedFilesLoopSkipSpec`: each file of `fixedOrMoved`
with no same-hash candidate in `newOrMoved` stays fixed; a file with
candidates is paired with the first candidate in encounter order and both are
removed from their pools, *and the immediately following `fixedOrMoved` file
is skipped* — it stays fixed without ever being examined for candidates —
because the `splice` during the `forEach` shifts it into the already-visited
slot.  Depending on array order this can yield one or several pairings per
content hash. -/
theorem C3_amended (fixedOrMoved newOrMoved : List BettererFileBase) :
    movedFilesLoop fixedOrMoved.length fixedOrMoved newOrMoved [] 0 =
      movedFilesLoopSkipSpec fixedOrMoved newOrMoved := by
  rw [movedFilesLoop_eq_skipSpec_aux fixedOrMoved.length fixedOrMoved newOrMoved [] 0
    (by omega)]
  simp

/-! ## C6 -/

/-- Path-uniqueness makes files injective in their path. -/
theorem path_inj (files : List BettererFileBase)
    (hnodup : (files.map (fun f => f.absolutePath)).Nodup) :
    ∀ e ∈ files, ∀ r ∈ files, e.absolutePath = r.absolutePath → e = r := by
  intro e he r hr hpath
  exact List.inj_on_of_nodup_map hnodup he hr hpath

/-- Every file finds itself by path. -/
theorem find?_self_path (files : List BettererFileBase) (r : BettererFileBase)
    (hr : r ∈ files) :
    (files.find? (fun e => e.absolutePath == r.absolutePath)).isSome = true := by
  simp only [List.find?_isSome]
  exact ⟨r, hr, by simp⟩

/-- Diffing a snapshot against itself: no result file is new or moved. -/
theorem newOrMovedFiles_self (s : BettererFileTestResultΩ) :
    newOrMovedFiles s s = [] := by
  unfold newOrMovedFiles
  rw [List.filter_eq_nil_iff]
  intro r hr
  rcases Option.isSome_iff_exists.mp (find?_self_path s.files r hr) with ⟨v, hv⟩
  simp [hv]

/-- Diffing a snapshot against itself: no expected file is fixed or moved. -/
theorem fixedOrMovedFiles_self (s : BettererFileTestResultΩ) :
    fixedOrMovedFiles s s = [] := by
  unfold fixedOrMovedFiles
  rw [List.filter_eq_nil_iff]
  intro e he
  rcases Option.isSome_iff_exists.mp (find?_self_path s.files e he) with ⟨v, hv⟩
  simp [hv]

/-- Diffing a snapshot with unique paths against itself: no file is changed. -/
theorem changedResultFiles_self (s : BettererFileTestResultΩ)
    (hnodup : (s.files.map (fun f => f.absolutePath)).Nodup) :
    changedResultFiles s s = [] := by
  unfold changedResultFiles
  rw [List.filter_eq_nil_iff]
  intro r hr
  intro hsome
  rw [List.find?_isSome] at hsome
  rcases hsome with ⟨e, he, hpred⟩
  simp only [Bool.and_eq_true, beq_iff_eq, bne_iff_ne] at hpred
  exact hpred.2 (path_inj s.files hnodup e he r hr hpred.1 ▸ rfl)

/-- Diffing a snapshot against itself: every result file is unchanged. -/
theorem unchangedResultFiles_self (s : BettererFileTestResultΩ) :
    unchangedResultFiles s s = s.files := by
  unfold unchangedResultFiles
  rw [List.filter_eq_self]
  intro r hr
  simp only [List.find?_isSome]
  exact ⟨r, hr, by simp⟩

/-- Diffing a snapshot against itself: the move loop gets empty pools and
records nothing. -/
theorem fileClassification_self (s : BettererFileTestResultΩ) :
    fileClassification s s = ([], [], []) := by
  unfold fileClassification
  rw [fixedOrMovedFiles_self, newOrMovedFiles_self]
  rfl

/-- Every issue matches itself exactly, so the exact-match pass of a file
diffed against itself keeps every expected issue. -/
theorem unchangedExpectedIssues_self (issues : List BettererFileIssue) :
    unchangedExpectedIssues issues issues = issues := by
  unfold unchangedExpectedIssues
  rw [List.filter_eq_self]
  intro x hx
  simp only [List.find?_isSome]
  exact ⟨x, hx, issuesEqual_refl x⟩

/-- Every issue matches itself exactly, so the exact-match pass of a file
diffed against itself keeps every result issue. -/
theorem unchangedResultIssues_self (issues : List BettererFileIssue) :
    unchangedResultIssues issues issues = issues := by
  unfold unchangedResultIssues
  rw [List.filter_eq_self]
  intro x hx
  simp only [List.find?_isSome]
  exact ⟨x, hx, issuesEqual_refl x⟩

/-- Self-diff of a file: nothing is left for the move/fix resolution. -/
theorem fixedOrMovedIssues_self (issues : List BettererFileIssue) :
    fixedOrMovedIssues issues issues = [] := by
  unfold fixedOrMovedIssues
  rw [unchangedExpectedIssues_self, List.filter_eq_nil_iff]
  intro x hx
  simp [List.contains, hx]

/-- Self-diff of a file: no result issue is new or moved. -/
theorem newOrMovedIssues_self (issues : List BettererFileIssue) :
    newOrMovedIssues issues issues = [] := by
  unfold newOrMovedIssues
  rw [unchangedResultIssues_self, List.filter_eq_nil_iff]
  intro x hx
  simp [List.contains, hx]

/-- Self-diff of a file is gated away: no entry. -/
theorem diffForExistingFile_self (f : BettererFileBase) :
    diffForExistingFile f f = none := by
  unfold diffForExistingFile newIssuesOf remainingNewOrMovedOf fixedIssuesOf issuesScan
  rw [fixedOrMovedIssues_self, newOrMovedIssues_self]
  rfl

/-- With unique paths, the by-path lookup of a member file returns the file
itself. -/
theorem getFile_self (s : BettererFileTestResultΩ)
    (hnodup : (s.files.map (fun f => f.absolutePath)).Nodup)
    (r : BettererFileBase) (hr : r ∈ s.files) :
    s.getFile r.absolutePath = some r := by
  unfold BettererFileTestResultΩ.getFile
  cases hfind : s.files.find? (fun f => f.absolutePath == r.absolutePath) with
  | none =>
    exfalso
    have hcon := List.find?_eq_none.mp hfind r hr
    simp at hcon
  | some e =>
    have he : e ∈ s.files := List.mem_of_find?_eq_some hfind
    have hpe : e.absolutePath = r.absolutePath := by
      have := List.find?_some hfind
      simpa using this
    rw [path_inj s.files hnodup e he r hr hpe]

/-- Folding a step that never changes the accumulator returns it unchanged. -/
theorem foldl_const_of_id {α : Type} (f : BettererFilesDiff → α → BettererFilesDiff)
    (l : List α) (h : ∀ x ∈ l, ∀ d, f d x = d) :
    ∀ d, l.foldl f d = d := by
  induction l with
  | nil => intro d; rfl
  | cons x rest ih =>
    intro d
    rw [List.foldl_cons, h x (List.mem_cons_self x rest)]
    exact ih (fun y hy d2 => h y (List.mem_cons_of_mem x hy) d2) d

/-- C6: diffing a snapshot (unique paths, as the data model requires) against
itself produces an empty diff mapping: every file is unchanged, every issue
matches itself in the exact-match pass, and the reporting gate suppresses
every entry. -/
theorem C6_idempotence (s : BettererFileTestResultΩ)
    (hnodup : (s.files.map (fun f => f.absolutePath)).Nodup) :
    differ s s = [] := by
  unfold differ fixedFilesOf newFilesOf movedFilePairsOf existingFilesOf
  unfold movedFilePairsOf
  rw [fileClassification_self, unchangedResultFiles_self, changedResultFiles_self s hnodup]
  simp only [List.foldl_nil, List.map_nil, List.append_nil]
  refine foldl_const_of_id _ _ ?_ []
  intro r hr d
  unfold existingFileStep counterpartOf
  simp only [List.find?_nil]
  rw [getFile_self s hnodup r hr]
  simp [diffForExistingFile_self]

/-- Witness for C6 at a concrete one-file snapshot. -/
theorem C6_witness :
    ((⟨[witnessFile]⟩ : BettererFileTestResultΩ).files.map
      (fun f => f.absolutePath)).Nodup ∧
    differ ⟨[witnessFile]⟩ ⟨[witnessFile]⟩ = [] :=
  ⟨by decide, C6_idempotence ⟨[witnessFile]⟩ (by decide)⟩

/-! ## C4 amended -/

/-- The key-replacement function of `setEntry` preserves the `k`-key test. -/
theorem replace_pred_self (k : String) (v : BettererFileDiff) :
    ((fun kv => kv.1 == k) ∘ (fun kv : String × BettererFileDiff =>
      if kv.1 == k then (k, v) else kv)) = fun kv => kv.1 == k := by
  funext kv
  by_cases h0 : (kv.1 == k) = true
  · have h0p : kv.1 = k := eq_of_beq h0
    simp [h0, h0p]
  · have h0p : ¬kv.1 = k := fun hc => h0 (by simp [hc])
    simp [h0, h0p]

/-- The key-replacement function of `setEntry` preserves any other key test. -/
theorem replace_pred_other (k : String) (v : BettererFileDiff) (p : String)
    (hp : p ≠ k) :
    ((fun kv => kv.1 == p) ∘ (fun kv : String × BettererFileDiff =>
      if kv.1 == k then (k, v) else kv)) = fun kv => kv.1 == p := by
  funext kv
  by_cases h0 : (kv.1 == k) = true
  · have hkp : (k == p) = false := by simp [Ne.symm hp]
    simp [h0, hkp, eq_of_beq h0]
  · have h0p : ¬kv.1 = k := fun hc => h0 (by simp [hc])
    simp [h0, h0p]

/-- JS object assignment: reading back the written key gives the value. -/
theorem lookupEntry_setEntry_self (d : BettererFilesDiff) (k : String)
    (v : BettererFileDiff) : lookupEntry (setEntry d k v) k = some v := by
  unfold setEntry lookupEntry
  by_cases hany : d.any (fun kv => kv.1 == k) = true
  · rw [if_pos hany, List.find?_map, replace_pred_self k v]
    cases hfind : d.find? (fun kv => kv.1 == k) with
    | none =>
      exfalso
      rcases List.any_eq_true.mp hany with ⟨kv, hkv, hq⟩
      exact absurd (List.find?_eq_none.mp hfind kv hkv) (by simp [hq])
    | some kv1 =>
      have hq := List.find?_some hfind
      simp [Option.map_map, Function.comp, hq, eq_of_beq hq]
  · rw [if_neg hany, List.find?_append]
    have hnone : d.find? (fun kv => kv.1 == k) = none := by
      rw [List.find?_eq_none]
      intro kv hkv hbeq
      exact hany (List.any_eq_true.mpr ⟨kv, hkv, hbeq⟩)
    rw [hnone]
    simp

/-- JS object assignment: reading any other key is unaffected. -/
theorem lookupEntry_setEntry_other (d : BettererFilesDiff) (k : String)
    (v : BettererFileDiff) (p : String) (hp : p ≠ k) :
    lookupEntry (setEntry d k v) p = lookupEntry d p := by
  unfold setEntry lookupEntry
  by_cases hany : d.any (fun kv => kv.1 == k) = true
  · rw [if_pos hany, List.find?_map, replace_pred_other k v p hp]
    cases hfind : d.find? (fun kv => kv.1 == p) with
    | none => simp
    | some kv1 =>
      have hq := List.find?_some hfind
      have h1k : ¬kv1.1 = k := by
        rw [eq_of_beq hq]
        exact hp
      simp [Option.map_map, Function.comp, h1k]
  · rw [if_neg hany, List.find?_append]
    have hone : [(k, v)].find? (fun kv => kv.1 == p) = none := by
      simp [Ne.symm hp]
    rw [hone]
    simp

/-- A fold that writes an entry for every file creates a key exactly for the
file paths (and keeps all keys it started with). -/
theorem lookup_isSome_foldl_entry
    (step : BettererFilesDiff → BettererFileBase → BettererFilesDiff)
    (entryOf : BettererFileBase → BettererFileDiff)
    (hstep : ∀ d f, step d f = setEntry d f.absolutePath (entryOf f)) :
    ∀ (l : List BettererFileBase) (d : BettererFilesDiff) (p : String),
      (lookupEntry (l.foldl step d) p).isSome = true ↔
        (lookupEntry d p).isSome = true ∨ ∃ f ∈ l, f.absolutePath = p := by
  intro l
  induction l with
  | nil => simp
  | cons f rest ih =>
    intro d p
    rw [List.foldl_cons, ih (step d f) p, hstep d f]
    by_cases hp : p = f.absolutePath
    · subst hp
      rw [lookupEntry_setEntry_self]
      refine iff_of_true (Or.inl rfl) (Or.inr ⟨f, List.mem_cons_self f rest, rfl⟩)
    · rw [lookupEntry_setEntry_other _ _ _ p hp]
      constructor
      · rintro (h | ⟨g, hg, hgp⟩)
        · exact Or.inl h
        · exact Or.inr ⟨g, List.mem_cons_of_mem f hg, hgp⟩
      · rintro (h | ⟨g, hg, hgp⟩)
        · exact Or.inl h
        · rcases List.mem_cons.mp hg with hgf | hg2
          · exact absurd (hgf ▸ hgp).symm hp
          · exact Or.inr ⟨g, hg2, hgp⟩

/-- The existing-files fold creates a key exactly for the paths of matched
result files whose issue diff passes the reporting gate. -/
theorem lookup_isSome_foldl_existing (expectedΩ : BettererFileTestResultΩ)
    (movedFilePairs : List (BettererFileBase × BettererFileBase)) :
    ∀ (l : List BettererFileBase) (d : BettererFilesDiff) (p : String),
      (lookupEntry (l.foldl (existingFileStep expectedΩ movedFilePairs) d) p).isSome
          = true ↔
        (lookupEntry d p).isSome = true ∨
          ∃ rf ∈ l, rf.absolutePath = p ∧
            ∃ ef, counterpartOf expectedΩ movedFilePairs rf = some ef ∧
              diffForExistingFile ef rf ≠ none := by
  intro l
  induction l with
  | nil => simp
  | cons rf rest ih =>
    intro d p
    rw [List.foldl_cons, ih (existingFileStep expectedΩ movedFilePairs d rf) p]
    cases hcp : counterpartOf expectedΩ movedFilePairs rf with
    | none =>
      have hstep : existingFileStep expectedΩ movedFilePairs d rf = d := by
        unfold existingFileStep
        rw [hcp]
      rw [hstep]
      constructor
      · rintro (h | ⟨g, hg, hgp, ef2, hef2, hne⟩)
        · exact Or.inl h
        · exact Or.inr ⟨g, List.mem_cons_of_mem rf hg, hgp, ef2, hef2, hne⟩
      · rintro (h | ⟨g, hg, hgp, ef2, hef2, hne⟩)
        · exact Or.inl h
        · rcases List.mem_cons.mp hg with hgf | hg2
          · subst hgf
            rw [hcp] at hef2
            exact absurd hef2 (by simp)
          · exact Or.inr ⟨g, hg2, hgp, ef2, hef2, hne⟩
    | some ef =>
      cases hdf : diffForExistingFile ef rf with
      | none =>
        have hstep : existingFileStep expectedΩ movedFilePairs d rf = d := by
          unfold existingFileStep
          rw [hcp]
          show (match diffForExistingFile ef rf with
            | none => d
            | some entry => setEntry d rf.absolutePath entry) = d
          rw [hdf]
        rw [hstep]
        constructor
        · rintro (h | ⟨g, hg, hgp, ef2, hef2, hne⟩)
          · exact Or.inl h
          · exact Or.inr ⟨g, List.mem_cons_of_mem rf hg, hgp, ef2, hef2, hne⟩
        · rintro (h | ⟨g, hg, hgp, ef2, hef2, hne⟩)
          · exact Or.inl h
          · rcases List.mem_cons.mp hg with hgf | hg2
            · subst hgf
              rw [hcp] at hef2
              have hef2e : ef = ef2 := by
                injection hef2
              rw [← hef2e, hdf] at hne
              exact absurd rfl hne
            · exact Or.inr ⟨g, hg2, hgp, ef2, hef2, hne⟩
      | some entry =>
        have hstep : existingFileStep expectedΩ movedFilePairs d rf =
            setEntry d rf.absolutePath entry := by
          unfold existingFileStep
          rw [hcp]
          show (match diffForExistingFile ef rf with
            | none => d
            | some entry => setEntry d rf.absolutePath entry) =
              setEntry d rf.absolutePath entry
          rw [hdf]
        rw [hstep]
        by_cases hp : p = rf.absolutePath
        · subst hp
          rw [lookupEntry_setEntry_self]
          refine iff_of_true (Or.inl rfl) (Or.inr ⟨rf, List.mem_cons_self rf rest,
            rfl, ef, hcp, by rw [hdf]; simp⟩)
        · rw [lookupEntry_setEntry_other _ _ _ p hp]
          constructor
          · rintro (h | ⟨g, hg, hgp, ef2, hef2, hne⟩)
            · exact Or.inl h
            · exact Or.inr ⟨g, List.mem_cons_of_mem rf hg, hgp, ef2, hef2, hne⟩
          · rintro (h | ⟨g, hg, hgp, ef2, hef2, hne⟩)
            · exact Or.inl h
            · rcases List.mem_cons.mp hg with hgf | hg2
              · exact absurd (hgf ▸ hgp).symm hp
              · exact Or.inr ⟨g, hg2, hgp, ef2, hef2, hne⟩

/-- The reporting gate of differ.ts lines 139-142: an entry is produced for a
matched pair exactly when the pair has at least one fixed or new issue. -/
theorem diffForExistingFile_ne_none_iff (ef rf : BettererFileBase) :
    diffForExistingFile ef rf ≠ none ↔
      (fixedIssuesOf ef.issues rf.issues ≠ [] ∨
        newIssuesOf ef.issues rf.issues ≠ []) := by
  unfold diffForExistingFile
  by_cases hn : newIssuesOf ef.issues rf.issues = []
  · by_cases hf : fixedIssuesOf ef.issues rf.issues = []
    · simp [hn, hf]
    · simp [hn, hf, List.isEmpty_iff]
  · simp [hn, List.isEmpty_iff]

/-- C4 amended: the diff mapping has an entry for a path iff the file there is
a whole-file fixed classification, a whole-file new classification (both get
an entry even with an empty issue list — differ.ts lines 59-69 are
unconditional), or a matched (unchanged/changed/moved) result file whose
issue diff yields at least one fixed or at least one new issue (the reporting
gate of lines 139-142). -/
theorem C4_amended (expectedΩ resultΩ : BettererFileTestResultΩ) (path : String) :
    (lookupEntry (differ expectedΩ resultΩ) path).isSome = true ↔
      (∃ f ∈ fixedFilesOf expectedΩ resultΩ, f.absolutePath = path) ∨
      (∃ f ∈ newFilesOf expectedΩ resultΩ, f.absolutePath = path) ∨
      (∃ rf ∈ existingFilesOf expectedΩ resultΩ, rf.absolutePath = path ∧
        ∃ ef, counterpartOf expectedΩ (movedFilePairsOf expectedΩ resultΩ) rf = some ef ∧
          (fixedIssuesOf ef.issues rf.issues ≠ [] ∨
            newIssuesOf ef.issues rf.issues ≠ [])) := by
  unfold differ
  rw [lookup_isSome_foldl_existing expectedΩ (movedFilePairsOf expectedΩ resultΩ)]
  rw [lookup_isSome_foldl_entry newFileEntry
    (fun file => { new := some (file.issues.map serialiseIssue) })
    (fun d f => rfl)]
  rw [lookup_isSome_foldl_entry fixedFileEntry
    (fun file => { fixed := some (file.issues.map serialiseIssue) })
    (fun d f => rfl)]
  have hempty : (lookupEntry [] path).isSome = false := rfl
  rw [hempty]
  simp only [Bool.false_eq_true, false_or]
  constructor
  · rintro ((hfx | hnw) | ⟨rf, hrf, hrfp, ef, hef, hne⟩)
    · exact Or.inl hfx
    · exact Or.inr (Or.inl hnw)
    · exact Or.inr (Or.inr ⟨rf, hrf, hrfp, ef, hef,
        (diffForExistingFile_ne_none_iff ef rf).mp hne⟩)
  · rintro (hfx | hnw | ⟨rf, hrf, hrfp, ef, hef, hor⟩)
    · exact Or.inl (Or.inl hfx)
    · exact Or.inl (Or.inr hnw)
    · exact Or.inr ⟨rf, hrf, hrfp, ef, hef,
        (diffForExistingFile_ne_none_iff ef rf).mpr hor⟩

/-! ## C5 -/

/-- Removing the element at a valid index is a permutation with the element
put in front. -/
theorem perm_cons_eraseIdx {α : Type} (l : List α) (i : Nat) (h : i < l.length) :
    l.Perm (l[i] :: l.eraseIdx i) := by
  conv_lhs => rw [← List.take_append_drop i l, List.drop_eq_getElem_cons h]
  rw [List.eraseIdx_eq_take_drop_succ]
  exact List.perm_middle

/-- The move loop consumes its pools one pairing at a time: whatever prefix
of pairings it produces, the initial `fixedOrMoved` list is a permutation of
the consumed expected files plus the final fixed files, and likewise the
initial `newOrMoved` list of the consumed result files plus the final new
files. -/
theorem movedFilesLoop_perm :
    ∀ (fuel : Nat) (fs ns : List BettererFileBase)
      (mv : List (BettererFileBase × BettererFileBase)) (i : Nat),
      ∃ mvNew fsF nsF,
        movedFilesLoop fuel fs ns mv i = (fsF, nsF, mv ++ mvNew) ∧
        fs.Perm (mvNew.map Prod.snd ++ fsF) ∧
        ns.Perm (mvNew.map Prod.fst ++ nsF) := by
  intro fuel
  induction fuel with
  | zero =>
    intro fs ns mv i
    exact ⟨[], fs, ns, by simp [movedFilesLoop], by simp, by simp⟩
  | succ fuel ih =>
    intro fs ns mv i
    by_cases hidx : i < fs.length
    · cases hfilter : ns.filter (fun n => n.hash == fs[i].hash) with
      | nil =>
        have hloop : movedFilesLoop (fuel + 1) fs ns mv i =
            movedFilesLoop fuel fs ns mv (i + 1) := by
          simp only [movedFilesLoop, dif_pos hidx, hfilter]
        rcases ih fs ns mv (i + 1) with ⟨mvNew, fsF, nsF, heq, hperm1, hperm2⟩
        exact ⟨mvNew, fsF, nsF, hloop ▸ heq, hperm1, hperm2⟩
      | cons m tail =>
        have hloop : movedFilesLoop (fuel + 1) fs ns mv i =
            movedFilesLoop fuel (fs.eraseIdx i) (ns.erase m)
              (mv ++ [(m, fs[i])]) (i + 1) := by
          simp only [movedFilesLoop, dif_pos hidx, hfilter]
        rcases ih (fs.eraseIdx i) (ns.erase m) (mv ++ [(m, fs[i])]) (i + 1) with
          ⟨mvNew, fsF, nsF, heq, hperm1, hperm2⟩
        have hm_mem : m ∈ ns :=
          List.mem_of_mem_filter (hfilter ▸ List.mem_cons_self m tail)
        refine ⟨(m, fs[i]) :: mvNew, fsF, nsF, ?_, ?_, ?_⟩
        · rw [hloop, heq, List.append_assoc]
          rfl
        · exact (perm_cons_eraseIdx fs i hidx).trans (hperm1.cons fs[i])
        · exact (List.perm_cons_erase hm_mem).trans (hperm2.cons m)
    · exact ⟨[], fs, ns, by simp [movedFilesLoop, dif_neg hidx], by simp, by simp⟩

/-- The issue scan consumes one `fixedOrMoved` issue per step, pushing it to
`fixedIssues` or pushing its chosen counterpart to `movedIssues` while
removing that counterpart from the pool. -/
theorem processScan_invariant :
    ∀ (toProcess pool fixedIssues movedIssues : List BettererFileIssue),
      ∃ fixedNew movedNew pool2,
        toProcess.foldl processFixedOrMovedIssue (pool, fixedIssues, movedIssues) =
          (pool2, fixedIssues ++ fixedNew, movedIssues ++ movedNew) ∧
        pool.Perm (movedNew ++ pool2) ∧
        toProcess.length = fixedNew.length + movedNew.length := by
  intro toProcess
  induction toProcess with
  | nil =>
    intro pool f m
    exact ⟨[], [], pool, by simp, by simp, rfl⟩
  | cons z rest ih =>
    intro pool f m
    rw [List.foldl_cons]
    by_cases hemp : (pool.filter (fun n => n.hash == z.hash)).isEmpty = true
    · have hstep : processFixedOrMovedIssue (pool, f, m) z = (pool, f ++ [z], m) := by
        unfold processFixedOrMovedIssue
        simp only [hemp, if_pos]
      rw [hstep]
      rcases ih pool (f ++ [z]) m with ⟨f2, m2, p2, heq, hperm, hlen⟩
      refine ⟨z :: f2, m2, p2, ?_, hperm, ?_⟩
      · rw [heq, List.append_assoc]
        rfl
      · simp only [List.length_cons, hlen]
        omega
    · cases hpick : pickBest z.line z.column (pool.filter (fun n => n.hash == z.hash)) with
      | none =>
        exfalso
        have hne : pool.filter (fun n => n.hash == z.hash) ≠ [] := by
          intro hc
          rw [hc] at hemp
          exact hemp rfl
        have := pickBest_isSome z.line z.column _ hne
        rw [hpick] at this
        exact absurd this (by simp)
      | some best =>
        have hstep : processFixedOrMovedIssue (pool, f, m) z =
            (pool.erase best, f, m ++ [best]) := by
          unfold processFixedOrMovedIssue
          simp only [hemp, if_neg, Bool.false_eq_true, not_false_iff, hpick]
        rw [hstep]
        have hbestmem : best ∈ pool :=
          List.mem_of_mem_filter (pickBest_mem z.line z.column _ best hpick)
        rcases ih (pool.erase best) f (m ++ [best]) with ⟨f2, m2, p2, heq, hperm, hlen⟩
        refine ⟨f2, best :: m2, p2, ?_, ?_, ?_⟩
        · rw [heq, List.append_assoc]
          rfl
        · exact (List.perm_cons_erase hbestmem).trans (hperm.cons best)
        · simp only [List.length_cons, hlen]
          omega

/-- Splitting a list along three mutually exclusive, jointly exhaustive
predicates is a permutation. -/
theorem perm_filter3 {α : Type} (l : List α) (p q s : α → Bool)
    (h : ∀ x ∈ l,
      (p x = true ∧ q x = false ∧ s x = false) ∨
      (p x = false ∧ q x = true ∧ s x = false) ∨
      (p x = false ∧ q x = false ∧ s x = true)) :
    l.Perm (l.filter p ++ l.filter q ++ l.filter s) := by
  induction l with
  | nil => simp
  | cons x rest ih =>
    have hrest := fun y hy => h y (List.mem_cons_of_mem x hy)
    have hperm := ih hrest
    rcases h x (List.mem_cons_self x rest) with ⟨h1, h2, h3⟩ | ⟨h1, h2, h3⟩ | ⟨h1, h2, h3⟩
    · rw [List.filter_cons_of_pos (by rw [h1]),
        List.filter_cons_of_neg (by simp [h2]),
        List.filter_cons_of_neg (by simp [h3])]
      exact hperm.cons x
    · rw [List.filter_cons_of_neg (by simp [h1]),
        List.filter_cons_of_pos (by rw [h2]),
        List.filter_cons_of_neg (by simp [h3])]
      exact (hperm.cons x).trans (List.perm_middle.append_right _).symm
    · rw [List.filter_cons_of_neg (by simp [h1]),
        List.filter_cons_of_neg (by simp [h2]),
        List.filter_cons_of_pos (by rw [h3])]
      exact (hperm.cons x).trans List.perm_middle.symm

/-- With unique expected paths, each result file is unchanged, changed, or
new-or-moved — exactly one of the three (differ.ts lines 22-30). -/
theorem result_files_partition (expectedΩ resultΩ : BettererFileTestResultΩ)
    (he : (expectedΩ.files.map (fun f => f.absolutePath)).Nodup) :
    resultΩ.files.Perm (unchangedResultFiles expectedΩ resultΩ ++
      changedResultFiles expectedΩ resultΩ ++ newOrMovedFiles expectedΩ resultΩ) := by
  unfold unchangedResultFiles changedResultFiles newOrMovedFiles
  apply perm_filter3
  intro x hx
  by_cases hfind : (expectedΩ.files.find?
      (fun ef => ef.absolutePath == x.absolutePath)).isSome = true
  · have hfind0 := hfind
    rw [List.find?_isSome] at hfind
    rcases hfind with ⟨e0, he0, hpe0⟩
    have hpe0p : e0.absolutePath = x.absolutePath := by simpa using hpe0
    have hnotnone : (expectedΩ.files.find?
        (fun ef => ef.absolutePath == x.absolutePath)).isNone = false := by
      rcases Option.isSome_iff_exists.mp hfind0 with ⟨v, hv⟩
      simp [hv]
    by_cases hhash : e0.hash = x.hash
    · refine Or.inl ⟨?_, ?_, hnotnone⟩
      · rw [List.find?_isSome]
        exact ⟨e0, he0, by simp [hpe0p, hhash]⟩
      · rw [Bool.eq_false_iff]
        intro hsome
        rw [List.find?_isSome] at hsome
        rcases hsome with ⟨e1, he1, hp1⟩
        simp only [Bool.and_eq_true, beq_iff_eq, bne_iff_ne] at hp1
        have he10 : e1 = e0 :=
          path_inj expectedΩ.files he e1 he1 e0 he0 (by rw [hp1.1, hpe0p])
        exact hp1.2 (by rw [he10, hhash])
    · refine Or.inr (Or.inl ⟨?_, ?_, hnotnone⟩)
      · rw [Bool.eq_false_iff]
        intro hsome
        rw [List.find?_isSome] at hsome
        rcases hsome with ⟨e1, he1, hp1⟩
        simp only [Bool.and_eq_true, beq_iff_eq] at hp1
        have he10 : e1 = e0 :=
          path_inj expectedΩ.files he e1 he1 e0 he0 (by rw [hp1.1, hpe0p])
        exact hhash (by rw [← he10, hp1.2])
      · rw [List.find?_isSome]
        exact ⟨e0, he0, by simp [hpe0p, bne_iff_ne, hhash]⟩
  · have hnone : expectedΩ.files.find?
        (fun ef => ef.absolutePath == x.absolutePath) = none := by
      cases hf : expectedΩ.files.find? (fun ef => ef.absolutePath == x.absolutePath) with
      | none => rfl
      | some v => exact absurd (by simp [hf]) hfind
    refine Or.inr (Or.inr ⟨?_, ?_, by simp [hnone]⟩)
    · rw [Bool.eq_false_iff]
      intro hsome
      rw [List.find?_isSome] at hsome
      rcases hsome with ⟨e1, he1, hp1⟩
      simp only [Bool.and_eq_true, beq_iff_eq] at hp1
      have := List.find?_eq_none.mp hnone e1 he1
      simp [hp1.1] at this
    · rw [Bool.eq_false_iff]
      intro hsome
      rw [List.find?_isSome] at hsome
      rcases hsome with ⟨e1, he1, hp1⟩
      simp only [Bool.and_eq_true, beq_iff_eq] at hp1
      have := List.find?_eq_none.mp hnone e1 he1
      simp [hp1.1] at this

/-- Each expected file is matched (path present in the result) or
fixed-or-moved (path absent) — exactly one of the two (differ.ts
lines 32-34). -/
theorem expected_files_partition (expectedΩ resultΩ : BettererFileTestResultΩ) :
    expectedΩ.files.Perm (matchedExpectedFiles expectedΩ resultΩ ++
      fixedOrMovedFiles expectedΩ resultΩ) := by
  unfold matchedExpectedFiles fixedOrMovedFiles
  have hcong : expectedΩ.files.filter (fun e =>
      !((resultΩ.files.find? (fun r => r.absolutePath == e.absolutePath)).isSome)) =
      expectedΩ.files.filter (fun e =>
        (resultΩ.files.find? (fun r => r.absolutePath == e.absolutePath)).isNone) := by
    refine List.filter_congr fun x _ => ?_
    cases resultΩ.files.find? (fun r => r.absolutePath == x.absolutePath) <;> rfl
  rw [← hcong]
  exact (List.filter_append_perm _ expectedΩ.files).symm

/-- The outcome of `issuesScan`, spelled out by `processScan_invariant`. -/
theorem issuesScan_spec (expectedIssues resultIssues : List BettererFileIssue) :
    ∃ fixedNew movedNew pool2,
      issuesScan expectedIssues resultIssues = (pool2, fixedNew, movedNew) ∧
      (newOrMovedIssues expectedIssues resultIssues).Perm (movedNew ++ pool2) ∧
      (fixedOrMovedIssues expectedIssues resultIssues).length =
        fixedNew.length + movedNew.length := by
  rcases processScan_invariant (fixedOrMovedIssues expectedIssues resultIssues)
    (newOrMovedIssues expectedIssues resultIssues) [] [] with
    ⟨f2, m2, p2, heq, hperm, hlen⟩
  refine ⟨f2, m2, p2, ?_, hperm, hlen⟩
  unfold issuesScan
  simpa using heq

/-- Result-side issue partition for one matched pair: every result issue is
unchanged, moved, or new — exactly once. -/
theorem issue_partition_result (expectedIssues resultIssues : List BettererFileIssue) :
    resultIssues.Perm (unchangedResultIssues expectedIssues resultIssues ++
      (movedIssuesOf expectedIssues resultIssues ++
        newIssuesOf expectedIssues resultIssues)) := by
  rcases issuesScan_spec expectedIssues resultIssues with ⟨f2, m2, p2, heq, hperm, hlen⟩
  have hm : movedIssuesOf expectedIssues resultIssues = m2 := by
    unfold movedIssuesOf
    rw [heq]
  have hp : remainingNewOrMovedOf expectedIssues resultIssues = p2 := by
    unfold remainingNewOrMovedOf
    rw [heq]
  have hnew : newIssuesOf expectedIssues resultIssues = p2 := by
    unfold newIssuesOf
    rw [hp, newIssuesFrom_eq]
  have hsplit : resultIssues.Perm (unchangedResultIssues expectedIssues resultIssues ++
      newOrMovedIssues expectedIssues resultIssues) := by
    rw [newOrMovedIssues_eq]
    unfold unchangedResultIssues
    exact (List.filter_append_perm _ resultIssues).symm
  refine hsplit.trans ?_
  rw [hm, hnew]
  exact List.Perm.append_left _ hperm

/-- Expected-side issue count for one matched pair: every expected issue is
unchanged, fixed, or consumed by a move — exactly once. -/
theorem issue_partition_expected (expectedIssues resultIssues : List BettererFileIssue) :
    expectedIssues.length =
      (unchangedExpectedIssues expectedIssues resultIssues).length +
        ((fixedIssuesOf expectedIssues resultIssues).length +
          (movedIssuesOf expectedIssues resultIssues).length) := by
  rcases issuesScan_spec expectedIssues resultIssues with ⟨f2, m2, p2, heq, hperm, hlen⟩
  have hf : fixedIssuesOf expectedIssues resultIssues = f2 := by
    unfold fixedIssuesOf
    rw [heq]
  have hm : movedIssuesOf expectedIssues resultIssues = m2 := by
    unfold movedIssuesOf
    rw [heq]
  have hsplit : expectedIssues.Perm
      (unchangedExpectedIssues expectedIssues resultIssues ++
        fixedOrMovedIssues expectedIssues resultIssues) := by
    rw [fixedOrMovedIssues_eq]
    unfold unchangedExpectedIssues
    exact (List.filter_append_perm _ expectedIssues).symm
  have hlen2 := hsplit.length_eq
  rw [List.length_append] at hlen2
  rw [hf, hm]
  omega

/-- The move loop's final state in terms of the initial pools. -/
theorem fileClassification_spec (expectedΩ resultΩ : BettererFileTestResultΩ) :
    (fixedOrMovedFiles expectedΩ resultΩ).Perm
      ((movedFilePairsOf expectedΩ resultΩ).map Prod.snd ++
        fixedFilesOf expectedΩ resultΩ) ∧
    (newOrMovedFiles expectedΩ resultΩ).Perm
      ((movedFilePairsOf expectedΩ resultΩ).map Prod.fst ++
        newFilesOf expectedΩ resultΩ) := by
  rcases movedFilesLoop_perm (fixedOrMovedFiles expectedΩ resultΩ).length
    (fixedOrMovedFiles expectedΩ resultΩ) (newOrMovedFiles expectedΩ resultΩ) [] 0 with
    ⟨mvNew, fsF, nsF, heq, h1, h2⟩
  have hclass : fileClassification expectedΩ resultΩ = (fsF, nsF, mvNew) := by
    unfold fileClassification
    rw [heq]
    simp
  have hmv : movedFilePairsOf expectedΩ resultΩ = mvNew := by
    unfold movedFilePairsOf
    rw [hclass]
  have hff : fixedFilesOf expectedΩ resultΩ = fsF := by
    unfold fixedFilesOf
    rw [hclass]
  have hnf : newFilesOf expectedΩ resultΩ = nsF := by
    unfold newFilesOf
    rw [hclass]
  rw [hmv, hff, hnf]
  exact ⟨h1, h2⟩

/-- C5: partition completeness.  With unique paths per snapshot, (1) every
result file is classified exactly once: unchanged, changed, the result side
of a moved pairing, or new; (2) every expected file is classified exactly
once: matched by path, the expected side of a moved pairing, or fixed;
(3) for every matched pair (any matched result file and its expected
counterpart), every result issue is classified exactly once as unchanged,
moved, or new, and every expected issue exactly once as unchanged, fixed, or
consumed by a move (the moved counterpart represents it).  Permutations
express "each element in exactly one class". -/
theorem C5_partition_completeness (expectedΩ resultΩ : BettererFileTestResultΩ)
    (he : (expectedΩ.files.map (fun f => f.absolutePath)).Nodup)
    (hr : (resultΩ.files.map (fun f => f.absolutePath)).Nodup) :
    resultΩ.files.Perm (unchangedResultFiles expectedΩ resultΩ ++
      changedResultFiles expectedΩ resultΩ ++
      ((movedFilePairsOf expectedΩ resultΩ).map Prod.fst ++
        newFilesOf expectedΩ resultΩ)) ∧
    expectedΩ.files.Perm (matchedExpectedFiles expectedΩ resultΩ ++
      ((movedFilePairsOf expectedΩ resultΩ).map Prod.snd ++
        fixedFilesOf expectedΩ resultΩ)) ∧
    (∀ rf ∈ existingFilesOf expectedΩ resultΩ, ∀ ef,
      counterpartOf expectedΩ (movedFilePairsOf expectedΩ resultΩ) rf = some ef →
        rf.issues.Perm (unchangedResultIssues ef.issues rf.issues ++
          (movedIssuesOf ef.issues rf.issues ++ newIssuesOf ef.issues rf.issues)) ∧
        ef.issues.length = (unchangedExpectedIssues ef.issues rf.issues).length +
          ((fixedIssuesOf ef.issues rf.issues).length +
            (movedIssuesOf ef.issues rf.issues).length)) := by
  refine ⟨?_, ?_, ?_⟩
  · exact (result_files_partition expectedΩ resultΩ he).trans
      (List.Perm.append_left _ (fileClassification_spec expectedΩ resultΩ).2)
  · exact (expected_files_partition expectedΩ resultΩ).trans
      (List.Perm.append_left _ (fileClassification_spec expectedΩ resultΩ).1)
  · intro rf _ ef _
    exact ⟨issue_partition_result ef.issues rf.issues,
      issue_partition_expected ef.issues rf.issues⟩

/-- Witness for C5 at a concrete one-file snapshot pair. -/
theorem C5_witness :
    ((⟨[witnessFile]⟩ : BettererFileTestResultΩ).files.map
      (fun f => f.absolutePath)).Nodup ∧
    ((⟨[witnessFile]⟩ : BettererFileTestResultΩ).files.map
      (fun f => f.absolutePath)).Nodup ∧
    ((⟨[witnessFile]⟩ : BettererFileTestResultΩ).files.Perm
      (unchangedResultFiles ⟨[witnessFile]⟩ ⟨[witnessFile]⟩ ++
        changedResultFiles ⟨[witnessFile]⟩ ⟨[witnessFile]⟩ ++
        ((movedFilePairsOf ⟨[witnessFile]⟩ ⟨[witnessFile]⟩).map Prod.fst ++
          newFilesOf ⟨[witnessFile]⟩ ⟨[witnessFile]⟩)) ∧
      (⟨[witnessFile]⟩ : BettererFileTestResultΩ).files.Perm
        (matchedExpectedFiles ⟨[witnessFile]⟩ ⟨[witnessFile]⟩ ++
          ((movedFilePairsOf ⟨[witnessFile]⟩ ⟨[witnessFile]⟩).map Prod.snd ++
            fixedFilesOf ⟨[witnessFile]⟩ ⟨[witnessFile]⟩)) ∧
      (∀ rf ∈ existingFilesOf ⟨[witnessFile]⟩ ⟨[witnessFile]⟩, ∀ ef,
        counterpartOf ⟨[witnessFile]⟩
            (movedFilePairsOf ⟨[witnessFile]⟩ ⟨[witnessFile]⟩) rf = some ef →
          rf.issues.Perm (unchangedResultIssues ef.issues rf.issues ++
            (movedIssuesOf ef.issues rf.issues ++ newIssuesOf ef.issues rf.issues)) ∧
          ef.issues.length = (unchangedExpectedIssues ef.issues rf.issues).length +
            ((fixedIssuesOf ef.issues rf.issues).length +
              (movedIssuesOf ef.issues rf.issues).length))) :=
  ⟨by decide, by decide,
    C5_partition_completeness ⟨[witnessFile]⟩ ⟨[witnessFile]⟩ (by decide) (by decide)⟩

/-! ## C9 -/

/-- `heapExtends` is reflexive. -/
theorem heapExtends_refl (h : Heap) : heapExtends h h :=
  ⟨⟨[], by simp⟩, ⟨[], by simp⟩⟩

/-- `heapExtends` is transitive. -/
theorem heapExtends_trans {h0 h1 h2 : Heap} (a : heapExtends h0 h1)
    (b : heapExtends h1 h2) : heapExtends h0 h2 := by
  obtain ⟨⟨f1, hf1⟩, ⟨i1, hi1⟩⟩ := a
  obtain ⟨⟨f2, hf2⟩, ⟨i2, hi2⟩⟩ := b
  exact ⟨⟨f1 ++ f2, by rw [hf2, hf1, List.append_assoc]⟩,
    ⟨i1 ++ i2, by rw [hi2, hi1, List.append_assoc]⟩⟩

/-- Extension never shrinks the file store. -/
theorem heapExtends_fileLen {h0 h1 : Heap} (a : heapExtends h0 h1) :
    h0.fileArrays.length ≤ h1.fileArrays.length := by
  obtain ⟨⟨f1, hf1⟩, _⟩ := a
  rw [hf1]
  simp

/-- Extension never shrinks the issue store. -/
theorem heapExtends_issueLen {h0 h1 : Heap} (a : heapExtends h0 h1) :
    h0.issueArrays.length ≤ h1.issueArrays.length := by
  obtain ⟨_, ⟨i1, hi1⟩⟩ := a
  rw [hi1]
  simp

/-- Allocating a file array preserves every existing array. -/
theorem heapExtends_allocFiles {h0 h : Heap} (a : heapExtends h0 h)
    (xs : List HeapFile) : heapExtends h0 (allocFiles h xs).2 := by
  obtain ⟨⟨f1, hf1⟩, ⟨i1, hi1⟩⟩ := a
  exact ⟨⟨f1 ++ [xs], by simp [allocFiles, hf1]⟩, ⟨i1, by simp [allocFiles, hi1]⟩⟩

/-- Allocating an issue array preserves every existing array. -/
theorem heapExtends_allocIssues {h0 h : Heap} (a : heapExtends h0 h)
    (xs : List BettererFileIssue) : heapExtends h0 (allocIssues h xs).2 := by
  obtain ⟨⟨f1, hf1⟩, ⟨i1, hi1⟩⟩ := a
  exact ⟨⟨f1, by simp [allocIssues, hf1]⟩, ⟨i1 ++ [xs], by simp [allocIssues, hi1]⟩⟩

/-- Writing a file array at a reference allocated after `h0` preserves every
array of `h0`. -/
theorem heapExtends_writeFiles {h0 h : Heap} (a : heapExtends h0 h)
    (ref : Nat) (xs : List HeapFile) (href : h0.fileArrays.length ≤ ref) :
    heapExtends h0 (writeFiles h ref xs) := by
  obtain ⟨⟨f1, hf1⟩, ⟨i1, hi1⟩⟩ := a
  refine ⟨⟨f1.set (ref - h0.fileArrays.length) xs, ?_⟩,
    ⟨i1, by simp [writeFiles, hi1]⟩⟩
  simp only [writeFiles, hf1]
  rw [List.set_append_right _ _ href]

/-- Writing an issue array at a reference allocated after `h0` preserves
every array of `h0`. -/
theorem heapExtends_writeIssues {h0 h : Heap} (a : heapExtends h0 h)
    (ref : Nat) (xs : List BettererFileIssue) (href : h0.issueArrays.length ≤ ref) :
    heapExtends h0 (writeIssues h ref xs) := by
  obtain ⟨⟨f1, hf1⟩, ⟨i1, hi1⟩⟩ := a
  refine ⟨⟨f1, by simp [writeIssues, hf1]⟩,
    ⟨i1.set (ref - h0.issueArrays.length) xs, ?_⟩⟩
  simp only [writeIssues, hi1]
  rw [List.set_append_right _ _ href]

/-- The issue loop writes only through its three references; whenever those
were allocated after `h0`, every array of `h0` survives. -/
theorem issueLoopH_extends (h0 : Heap) (newOrMovedRef fixedRef movedRef : Nat)
    (hn : h0.issueArrays.length ≤ newOrMovedRef)
    (hf : h0.issueArrays.length ≤ fixedRef)
    (hm : h0.issueArrays.length ≤ movedRef) :
    ∀ (issues : List BettererFileIssue) (h : Heap), heapExtends h0 h →
      heapExtends h0 (issueLoopH newOrMovedRef fixedRef movedRef issues h) := by
  intro issues
  induction issues with
  | nil => intro h a; exact a
  | cons issue rest ih =>
    intro h a
    unfold issueLoopH
    have halloc : heapExtends h0 (allocIssues h
        ((readIssues h newOrMovedRef).filter
          (fun n => n.hash == issue.hash))).2 :=
      heapExtends_allocIssues a _
    have hpossref : h0.issueArrays.length ≤ (allocIssues h
        ((readIssues h newOrMovedRef).filter
          (fun n => n.hash == issue.hash))).1 := by
      simp only [allocIssues]
      exact heapExtends_issueLen a
    cases hread : readIssues (allocIssues h
        ((readIssues h newOrMovedRef).filter (fun n => n.hash == issue.hash))).2
        (allocIssues h ((readIssues h newOrMovedRef).filter
          (fun n => n.hash == issue.hash))).1 with
    | nil =>
      simp only [hread]
      exact ih _ (heapExtends_writeIssues halloc fixedRef _ hf)
    | cons b restPoss =>
      simp only [hread]
      refine ih _ ?_
      refine heapExtends_writeIssues ?_ movedRef _ hm
      refine heapExtends_writeIssues ?_ newOrMovedRef _ hn
      exact heapExtends_writeIssues halloc _ _ hpossref

/-- Issue diffing of one matched pair allocates fresh arrays and writes only
through them: every array of the starting heap survives. -/
theorem diffIssuesH_extends (expectedIssues resultIssues : List BettererFileIssue)
    (h0 h : Heap) (a : heapExtends h0 h) :
    heapExtends h0 (diffIssuesH expectedIssues resultIssues h).2 := by
  simp only [diffIssuesH]
  split
  · refine issueLoopH_extends h0 _ _ _ ?_ ?_ ?_ _ _ ?_
    · exact heapExtends_issueLen a
    · exact heapExtends_issueLen
        (heapExtends_allocIssues (heapExtends_allocIssues a _) _)
    · exact heapExtends_issueLen (heapExtends_allocIssues a _)
    · exact heapExtends_allocIssues
        (heapExtends_allocIssues (heapExtends_allocIssues a _) _) _
  · refine issueLoopH_extends h0 _ _ _ ?_ ?_ ?_ _ _ ?_
    · exact heapExtends_issueLen a
    · exact heapExtends_issueLen
        (heapExtends_allocIssues (heapExtends_allocIssues a _) _)
    · exact heapExtends_issueLen (heapExtends_allocIssues a _)
    · exact heapExtends_allocIssues
        (heapExtends_allocIssues (heapExtends_allocIssues a _) _) _

/-- The heap move loop writes only through its two file-array references. -/
theorem movedFilesLoopH_extends (h0 : Heap) (fixedOrMovedRef newOrMovedRef : Nat)
    (hf : h0.fileArrays.length ≤ fixedOrMovedRef)
    (hn : h0.fileArrays.length ≤ newOrMovedRef) :
    ∀ (fuel index : Nat) (movedPairs : List (HeapFile × HeapFile)) (h : Heap),
      heapExtends h0 h →
      heapExtends h0
        (movedFilesLoopH fixedOrMovedRef newOrMovedRef fuel index movedPairs h).2 := by
  intro fuel
  induction fuel with
  | zero =>
    intro i mv h a
    exact a
  | succ fuel ih =>
    intro i mv h a
    unfold movedFilesLoopH
    by_cases hidx : i < (readFiles h fixedOrMovedRef).length
    · simp only [dif_pos hidx]
      cases hfilter : (readFiles h newOrMovedRef).filter
          (fun n => n.hash == (readFiles h fixedOrMovedRef)[i].hash) with
      | nil =>
        simp only [hfilter]
        exact ih (i + 1) mv h a
      | cons m tail =>
        simp only [hfilter]
        exact ih (i + 1) _ _
          (heapExtends_writeFiles (heapExtends_writeFiles a _ _ hf) _ _ hn)
    · simp only [dif_neg hidx]
      exact a

/-- One step of the heap existing-files fold preserves every array of the
starting heap. -/
theorem existingFileStepH_extends (h0 : Heap) (expectedFilesRef : Nat)
    (movedPairs : List (HeapFile × HeapFile)) (d : BettererFilesDiff) (h : Heap)
    (rf : HeapFile) (a : heapExtends h0 h) :
    heapExtends h0 (existingFileStepH expectedFilesRef movedPairs (d, h) rf).2 := by
  unfold existingFileStepH
  cases hopt : (match movedPairs.find? (fun kv => kv.1 == rf) with
    | some kv => some kv.2
    | none => (readFiles h expectedFilesRef).find?
        (fun f => f.absolutePath == rf.absolutePath)) with
  | none =>
    simp only [hopt]
    exact a
  | some ef =>
    simp only [hopt]
    rcases hd : diffIssuesH (readIssues h ef.issuesRef) (readIssues h rf.issuesRef) h
      with ⟨o, h2⟩
    have h2ext : heapExtends h0 h2 := by
      have hx := diffIssuesH_extends (readIssues h ef.issuesRef)
        (readIssues h rf.issuesRef) h0 h a
      rw [hd] at hx
      exact hx
    cases o with
    | none => exact h2ext
    | some entry => exact h2ext

/-- The heap existing-files fold preserves every array of the starting heap. -/
theorem existingFoldH_extends (h0 : Heap) (expectedFilesRef : Nat)
    (movedPairs : List (HeapFile × HeapFile)) :
    ∀ (l : List HeapFile) (d : BettererFilesDiff) (h : Heap), heapExtends h0 h →
      heapExtends h0
        ((l.foldl (existingFileStepH expectedFilesRef movedPairs) (d, h)).2) := by
  intro l
  induction l with
  | nil =>
    intro d h a
    exact a
  | cons rf rest ih =>
    intro d h a
    rw [List.foldl_cons]
    rcases hstep : existingFileStepH expectedFilesRef movedPairs (d, h) rf with ⟨d2, h2⟩
    have hext := existingFileStepH_extends h0 expectedFilesRef movedPairs d h rf a
    rw [hstep] at hext
    exact ih d2 h2 hext

/-- C9 (frame property): the differ leaves both input snapshots unchanged.
In the heap model every array present before the call — in particular the
file arrays of the expected and result snapshots and every issues array any
of their files point to — is present, identical, at the same reference after
`differH` returns: the final heap is the initial heap plus freshly allocated
arrays.  All `splice` / `shift` / `push` mutations act on arrays allocated
during the call (by `filter`, spread, or `[]` literals), never on the
inputs. -/
theorem C9_frame (expectedFilesRef resultFilesRef : Nat) (h : Heap) :
    heapExtends h (differH expectedFilesRef resultFilesRef h).2 := by
  simp only [differH]
  refine existingFoldH_extends h expectedFilesRef _ _ _ _ ?_
  refine movedFilesLoopH_extends h _ _ ?_ ?_ _ _ _ _ ?_
  · exact heapExtends_fileLen (heapExtends_allocFiles (heapExtends_refl h) _)
  · exact heapExtends_fileLen (heapExtends_refl h)
  · exact heapExtends_allocFiles (heapExtends_allocFiles (heapExtends_refl h) _) _
